import Mathlib

/-!
# Verification of the oneID-connect signed-assertion library

A shallow embedding of the library's compact-JWT / multi-signature JWS engine
and of the attribute encryption helpers in src/src/oneid/service.py, together
with proofs about the claims of the specification.

The core jwts module itself ships outside src/ (only its test suite is
present), so the JWT/JWS engine below is modelled from the specification's
own words (each such definition carries a note in its doc comment); the
attribute-encryption definitions are translated directly from
src/src/oneid/service.py.
-/

set_option maxHeartbeats 1000000
set_option maxRecDepth 100000

namespace OneId

/-! ## JSON values

Claim sets are mappings from string claim names to JSON values (spec section 3).
The payloads the engine serializes are JSON objects; numbers are modelled as
integers (the standard claims exp and nbf are integer seconds since epoch).
The three types are mutually inductive so that every function on them can be
defined by kernel-reducible structural recursion.
-/

mutual
inductive Json where
  | null : Json
  | bool (b : Bool) : Json
  | num (n : Int) : Json
  | str (s : String) : Json
  | arr (xs : JsonList) : Json
  | obj (kvs : JsonObj) : Json

inductive JsonList where
  | nil : JsonList
  | cons (hd : Json) (tl : JsonList) : JsonList

inductive JsonObj where
  | nil : JsonObj
  | cons (k : String) (v : Json) (tl : JsonObj) : JsonObj
end

deriving instance DecidableEq for Json, JsonList, JsonObj

/-- First-match lookup of a key in a JSON object (Python dicts have unique
keys; insertion order is preserved). -/
def JsonObj.lookup : JsonObj → String → Option Json
  | .nil, _ => none
  | .cons k v tl, key => if k == key then some v else tl.lookup key

/-- Concatenation of two JSON objects (later entries shadowed by earlier). -/
def JsonObj.append : JsonObj → JsonObj → JsonObj
  | .nil, ys => ys
  | .cons k v tl, ys => .cons k v (tl.append ys)

/-- The keys of a JSON object, in order. -/
def JsonObj.keys : JsonObj → List String
  | .nil => []
  | .cons k _ tl => k :: tl.keys

/-! ## Canonical JSON rendering

The engine serializes payloads with a canonical compact JSON form: no
whitespace, insertion order preserved, strings escaping only the quote, the
backslash and control characters (spec sections 4.6 and 6: "canonical JSON
serialization of the claim mapping").
-/

/-- Hex digit character for a value below 16 (lower case, as json emits). -/
def hexDig (n : Nat) : Char :=
  if n < 10 then Char.ofNat (48 + n) else Char.ofNat (87 + n)

/-- JSON-escape one character: quote and backslash get a backslash escape,
control characters a 4-digit unicode escape, everything else is emitted raw. -/
def escChar (c : Char) : List Char :=
  if c = '"' then ['\\', '"']
  else if c = '\\' then ['\\', '\\']
  else if c.toNat < 32 then
    ['\\', 'u', '0', '0', hexDig (c.toNat / 16), hexDig (c.toNat % 16)]
  else [c]

/-- JSON-escape a character list. -/
def escStr : List Char → List Char
  | [] => []
  | c :: cs => escChar c ++ escStr cs

/-- A rendered JSON string: quote, escaped body, quote. -/
def renderStr (s : String) : List Char :=
  '"' :: (escStr s.data ++ ['"'])

/-- Decimal digits of a natural number, most significant first (fuel-based so
that it stays kernel-reducible; the fuel argument only needs to be at least
the number of digits, and n + 1 always is). -/
def natDigsAux : Nat → Nat → List Char
  | 0, _ => []
  | fuel + 1, n =>
    if n < 10 then [Char.ofNat (48 + n)]
    else natDigsAux fuel (n / 10) ++ [Char.ofNat (48 + n % 10)]

def natDigs (n : Nat) : List Char := natDigsAux (n + 1) n

/-- Characters of an integer: optional minus sign, then decimal digits. -/
def intChars (i : Int) : List Char :=
  if i < 0 then '-' :: natDigs i.natAbs else natDigs i.natAbs

mutual
/-- Canonical compact JSON rendering of a value. -/
def Json.render : Json → List Char
  | .null => "null".data
  | .bool true => "true".data
  | .bool false => "false".data
  | .num n => intChars n
  | .str s => renderStr s
  | .arr .nil => ['[', ']']
  | .arr (.cons x xs) => '[' :: (Json.render x ++ JsonList.renderRest xs)
  | .obj .nil => ['{', '}']
  | .obj (.cons k v kvs) =>
    '{' :: (renderStr k ++ ':' :: (Json.render v ++ JsonObj.renderRest kvs))

/-- The tail of a rendered array: each further element preceded by a comma,
then the closing bracket. -/
def JsonList.renderRest : JsonList → List Char
  | .nil => [']']
  | .cons x xs => ',' :: (Json.render x ++ JsonList.renderRest xs)

/-- The tail of a rendered object: each further member preceded by a comma,
then the closing brace. -/
def JsonObj.renderRest : JsonObj → List Char
  | .nil => ['}']
  | .cons k v kvs => ',' :: (renderStr k ++ ':' :: (Json.render v ++ JsonObj.renderRest kvs))
end

mutual
/-- A size measure used only to budget the parser's fuel. -/
def Json.size : Json → Nat
  | .null => 1
  | .bool _ => 1
  | .num _ => 1
  | .str _ => 1
  | .arr .nil => 1
  | .arr (.cons x xs) => 1 + Json.size x + JsonList.size xs
  | .obj .nil => 1
  | .obj (.cons _ v kvs) => 1 + Json.size v + JsonObj.size kvs

def JsonList.size : JsonList → Nat
  | .nil => 1
  | .cons x xs => 1 + Json.size x + JsonList.size xs

def JsonObj.size : JsonObj → Nat
  | .nil => 1
  | .cons _ v kvs => 1 + Json.size v + JsonObj.size kvs
end

/-! ## JSON parsing

A standard recursive-descent JSON parser over character lists, structural on a
fuel counter (any fuel at least the size of the value suffices; the public
wrapper uses the input length plus one).  It models what `json.loads` accepts
for the documents this library produces and checks: objects, arrays, strings
with escapes, integers, booleans, null, with interspersed whitespace.
-/

def isWs (c : Char) : Bool := c == ' ' || c == '\t' || c == '\n' || c == '\r'

def isDig (c : Char) : Bool := '0' ≤ c && c ≤ '9'

def skipWs : List Char → List Char
  | [] => []
  | c :: cs => if isWs c then skipWs cs else c :: cs

def hexVal (c : Char) : Option Nat :=
  if '0' ≤ c && c ≤ '9' then some (c.toNat - 48)
  else if 'a' ≤ c && c ≤ 'f' then some (c.toNat - 87)
  else if 'A' ≤ c && c ≤ 'F' then some (c.toNat - 55)
  else none

/-- Build a character from a code point, rejecting invalid scalar values. -/
def mkChar (n : Nat) : Option Char :=
  if n.isValidChar then some (Char.ofNat n) else none

def unescape : Char → Option Char
  | '"' => some '"'
  | '\\' => some '\\'
  | '/' => some '/'
  | 'b' => some (Char.ofNat 8)
  | 'f' => some (Char.ofNat 12)
  | 'n' => some '\n'
  | 'r' => some '\r'
  | 't' => some '\t'
  | _ => none

/-- Parse four hex digits. -/
def parseHex4 : List Char → Option (Nat × List Char)
  | a :: b :: c :: d :: rest => do
    let va ← hexVal a
    let vb ← hexVal b
    let vc ← hexVal c
    let vd ← hexVal d
    some (((va * 16 + vb) * 16 + vc) * 16 + vd, rest)
  | _ => none

/-- Decode the low half of a surrogate pair following a high surrogate. -/
def decSurr (n : Nat) : List Char → Option (Char × List Char)
  | '\\' :: 'u' :: rest =>
    (parseHex4 rest).bind fun p =>
      if 56320 ≤ p.1 ∧ p.1 < 57344 then
        (mkChar (65536 + (n - 55296) * 1024 + (p.1 - 56320))).bind fun ch => some (ch, p.2)
      else none
  | _ => none

/-- Decode one escape sequence (after the backslash). -/
def decEsc : List Char → Option (Char × List Char)
  | 'u' :: rest =>
    (parseHex4 rest).bind fun p =>
      if 55296 ≤ p.1 ∧ p.1 < 56320 then decSurr p.1 p.2
      else (mkChar p.1).bind fun ch => some (ch, p.2)
  | e :: rest => (unescape e).bind fun ch => some (ch, rest)
  | [] => none

/-- Parse the body of a JSON string after the opening quote, handling escapes
(including unicode escapes with surrogate pairs).  Fuel-based; each step
consumes at least one character, so fuel one beyond the input length always
suffices. -/
def parseStrBody : Nat → List Char → Option (List Char × List Char)
  | 0, _ => none
  | fuel + 1, s =>
    match s with
    | [] => none
    | '"' :: rest => some ([], rest)
    | '\\' :: rest =>
      (decEsc rest).bind fun er =>
        (parseStrBody fuel er.2).bind fun p => some (er.1 :: p.1, p.2)
    | c :: rest =>
      if c.toNat < 32 then none
      else (parseStrBody fuel rest).bind fun p => some (c :: p.1, p.2)

/-- Digits of a number parsed most-significant-first via an accumulator. -/
def parseNatAcc (acc : Nat) : List Char → Nat × List Char
  | [] => (acc, [])
  | c :: rest =>
    if isDig c then parseNatAcc (acc * 10 + (c.toNat - 48)) rest
    else (acc, c :: rest)

/-- Parse an unsigned integer: at least one digit required. -/
def parseNat : List Char → Option (Nat × List Char)
  | [] => none
  | c :: rest =>
    if isDig c then some (parseNatAcc (c.toNat - 48) rest) else none

/-- Whether a list starts with the given character. -/
def headIs (l : List Char) (c : Char) : Bool :=
  match l with
  | x :: _ => x == c
  | [] => false

mutual
/-- Fuel-based recursive-descent parser for one JSON value. -/
def parseVal : Nat → List Char → Option (Json × List Char)
  | 0, _ => none
  | fuel + 1, s =>
    match skipWs s with
    | 'n' :: 'u' :: 'l' :: 'l' :: r => some (.null, r)
    | 't' :: 'r' :: 'u' :: 'e' :: r => some (.bool true, r)
    | 'f' :: 'a' :: 'l' :: 's' :: 'e' :: r => some (.bool false, r)
    | '"' :: r =>
      (parseStrBody (r.length + 1) r).bind fun p => some (.str (String.mk p.1), p.2)
    | '[' :: r =>
      if headIs (skipWs r) ']' then some (.arr .nil, (skipWs r).tail)
      else
        (parseVal fuel r).bind fun p =>
          (parseListRest fuel p.2).bind fun q => some (.arr (.cons p.1 q.1), q.2)
    | '{' :: r =>
      if headIs (skipWs r) '}' then some (.obj .nil, (skipWs r).tail)
      else if headIs (skipWs r) '"' then
        (parseStrBody ((skipWs r).tail.length + 1) (skipWs r).tail).bind fun kp =>
          if headIs (skipWs kp.2) ':' then
            (parseVal fuel (skipWs kp.2).tail).bind fun vp =>
              (parseObjRest fuel vp.2).bind fun q =>
                some (.obj (.cons (String.mk kp.1) vp.1 q.1), q.2)
          else none
      else none
    | '-' :: r => (parseNat r).bind fun p => some (.num (-(p.1 : Int)), p.2)
    | c :: r =>
      if isDig c then (parseNat (c :: r)).bind fun p => some (.num (p.1 : Int), p.2)
      else none
    | [] => none

/-- After one array element: a comma and a further element, or the close. -/
def parseListRest : Nat → List Char → Option (JsonList × List Char)
  | 0, _ => none
  | fuel + 1, s =>
    match skipWs s with
    | ',' :: r =>
      (parseVal fuel r).bind fun p =>
        (parseListRest fuel p.2).bind fun q => some (.cons p.1 q.1, q.2)
    | ']' :: r => some (.nil, r)
    | _ => none

/-- After one object member: a comma and a further member, or the close. -/
def parseObjRest : Nat → List Char → Option (JsonObj × List Char)
  | 0, _ => none
  | fuel + 1, s =>
    match skipWs s with
    | ',' :: r =>
      if headIs (skipWs r) '"' then
        (parseStrBody ((skipWs r).tail.length + 1) (skipWs r).tail).bind fun kp =>
          if headIs (skipWs kp.2) ':' then
            (parseVal fuel (skipWs kp.2).tail).bind fun vp =>
              (parseObjRest fuel vp.2).bind fun q =>
                some (.cons (String.mk kp.1) vp.1 q.1, q.2)
          else none
      else none
    | '}' :: r => some (.nil, r)
    | _ => none
end

/-- Parse a complete JSON document: one value, then only whitespace. -/
def parseJson (s : List Char) : Option Json :=
  match parseVal (s.length + 1) s with
  | some (j, r) => if (skipWs r).isEmpty then some j else none
  | none => none

/-! ## Base64 (spec section 4.1 and Python base64)

Bytes are naturals below 256.  The core is a codec between byte lists and
sextet lists; the two alphabets (standard `+/` used by service.py via
`base64.b64encode`, URL-safe `-_` used for token segments) share it.
-/

/-- Bytes to sextets: each 3-byte group becomes 4 sextets; a trailing byte
becomes 2 sextets, two trailing bytes become 3 (low bits zero-padded). -/
def bytesToSex : List Nat → List Nat
  | [] => []
  | [a] => [a / 4, a % 4 * 16]
  | [a, b] => [a / 4, a % 4 * 16 + b / 16, b % 16 * 4]
  | a :: b :: c :: rest =>
    a / 4 :: (a % 4 * 16 + b / 16) :: (b % 16 * 4 + c / 64) :: c % 64 :: bytesToSex rest

/-- Sextets back to bytes; a single trailing sextet is malformed. -/
def sexToBytes : List Nat → Option (List Nat)
  | [] => some []
  | [_] => none
  | [s1, s2] => some [s1 * 4 + s2 / 16]
  | [s1, s2, s3] => some [s1 * 4 + s2 / 16, s2 % 16 * 16 + s3 / 4]
  | s1 :: s2 :: s3 :: s4 :: rest => do
    let bs ← sexToBytes rest
    some ((s1 * 4 + s2 / 16) :: (s2 % 16 * 16 + s3 / 4) :: (s3 % 4 * 64 + s4) :: bs)

/-- The 62 alphanumeric base64 characters shared by both alphabets. -/
def b64Alphanum : List Char :=
  ['A', 'B', 'C', 'D', 'E', 'F', 'G', 'H', 'I', 'J', 'K', 'L', 'M',
   'N', 'O', 'P', 'Q', 'R', 'S', 'T', 'U', 'V', 'W', 'X', 'Y', 'Z',
   'a', 'b', 'c', 'd', 'e', 'f', 'g', 'h', 'i', 'j', 'k', 'l', 'm',
   'n', 'o', 'p', 'q', 'r', 's', 't', 'u', 'v', 'w', 'x', 'y', 'z',
   '0', '1', '2', '3', '4', '5', '6', '7', '8', '9']

/-- The character for a sextet, parameterized by the two final alphabet
characters ('+'/'/' for standard base64, '-'/'_' for URL-safe). -/
def sexChar (c62 c63 : Char) (n : Nat) : Char :=
  if n = 62 then c62 else if n = 63 then c63 else b64Alphanum.getD n 'A'

/-- The sextet for a character, if it belongs to the alphabet. -/
def charSex (c62 c63 : Char) (c : Char) : Option Nat :=
  if c = c62 then some 62
  else if c = c63 then some 63
  else if 'A' ≤ c ∧ c ≤ 'Z' then some (c.toNat - 65)
  else if 'a' ≤ c ∧ c ≤ 'z' then some (c.toNat - 97 + 26)
  else if '0' ≤ c ∧ c ≤ '9' then some (c.toNat - 48 + 52)
  else none

/-- Map every character of a list through `charSex`, all-or-nothing. -/
def charsSex (c62 c63 : Char) : List Char → Option (List Nat)
  | [] => some []
  | c :: cs => do
    let s ← charSex c62 c63 c
    let ss ← charsSex c62 c63 cs
    some (s :: ss)

/-- Drop trailing padding characters. -/
def dropPad (s : List Char) : List Char :=
  List.reverse (List.dropWhile (fun c => c = '=') s.reverse)

/-- URL-safe base64 encoding without padding (spec section 4.1:
"emits URL-safe base64 without padding"). -/
def b64urlEncode (bs : List Nat) : List Char :=
  (bytesToSex bs).map (sexChar '-' '_')

/-- URL-safe base64 decoding (spec section 4.1): padding is tolerated and
stripped, every other character must belong to the URL-safe alphabet, and a
leftover single sextet (length 1 mod 4 after re-padding) is malformed. -/
def b64urlDecode (s : List Char) : Option (List Nat) := do
  let sx ← charsSex '-' '_' (dropPad s)
  sexToBytes sx

/-- Padding characters finishing a standard base64 group. -/
def b64Pad (nBytes : Nat) : List Char :=
  if nBytes % 3 = 1 then ['=', '='] else if nBytes % 3 = 2 then ['='] else []

/-- Standard base64 encoding with padding, as `base64.b64encode` emits. -/
def b64stdEncode (bs : List Nat) : List Char :=
  (bytesToSex bs).map (sexChar '+' '/') ++ b64Pad bs.length

/-- Standard base64 decoding modelling `base64.b64decode` with its default
lenient validation: characters outside the alphabet (and padding) are
discarded, then the count of data-plus-padding characters must be a multiple
of four, then the data sextets are decoded. -/
def b64stdDecode (s : List Char) : Option (List Nat) :=
  let kept := s.filter (fun c => ((charSex '+' '/' c).isSome : Bool) || c = '=')
  if kept.length % 4 = 0 then do
    let sx ← charsSex '+' '/' (dropPad kept)
    sexToBytes sx
  else none

/-! ## UTF-8 -/

/-- The UTF-8 bytes of one character. -/
def utf8Char (c : Char) : List Nat :=
  let n := c.toNat
  if n < 128 then [n]
  else if n < 2048 then [192 + n / 64, 128 + n % 64]
  else if n < 65536 then [224 + n / 4096, 128 + n / 64 % 64, 128 + n % 64]
  else [240 + n / 262144, 128 + n / 4096 % 64, 128 + n / 64 % 64, 128 + n % 64]

/-- The UTF-8 bytes of a character list. -/
def utf8Chars : List Char → List Nat
  | [] => []
  | c :: cs => utf8Char c ++ utf8Chars cs

/-- The UTF-8 bytes of a string (the engines' string-to-bytes coercion). -/
def strBytes (s : String) : List Nat := utf8Chars s.data

/-- Whether a byte is a UTF-8 continuation byte. -/
def isCont (b : Nat) : Bool := 128 ≤ b && b < 192

/-- Decode one 2-byte UTF-8 sequence head. -/
def utf8Cont2 (b0 b1 : Nat) : Option Char :=
  if isCont b1 then
    let n := (b0 - 192) * 64 + (b1 - 128)
    if 128 ≤ n then mkChar n else none
  else none

/-- Decode one 3-byte UTF-8 sequence head. -/
def utf8Cont3 (b0 b1 b2 : Nat) : Option Char :=
  if isCont b1 && isCont b2 then
    let n := (b0 - 224) * 4096 + (b1 - 128) * 64 + (b2 - 128)
    if 2048 ≤ n then mkChar n else none
  else none

/-- Decode one 4-byte UTF-8 sequence head. -/
def utf8Cont4 (b0 b1 b2 b3 : Nat) : Option Char :=
  if isCont b1 && isCont b2 && isCont b3 then
    let n := (b0 - 240) * 262144 + (b1 - 128) * 4096 + (b2 - 128) * 64 + (b3 - 128)
    if 65536 ≤ n then mkChar n else none
  else none

/-- Dispatch a 2-byte sequence: one continuation byte needed. -/
def utf8Two (b0 : Nat) : List Nat → Option (Char × List Nat)
  | b1 :: rest2 => (utf8Cont2 b0 b1).bind fun c => some (c, rest2)
  | _ => none

/-- Dispatch a 3-byte sequence: two continuation bytes needed. -/
def utf8Three (b0 : Nat) : List Nat → Option (Char × List Nat)
  | b1 :: b2 :: rest2 => (utf8Cont3 b0 b1 b2).bind fun c => some (c, rest2)
  | _ => none

/-- Dispatch a 4-byte sequence: three continuation bytes needed. -/
def utf8Four (b0 : Nat) : List Nat → Option (Char × List Nat)
  | b1 :: b2 :: b3 :: rest2 => (utf8Cont4 b0 b1 b2 b3).bind fun c => some (c, rest2)
  | _ => none

/-- Decode one UTF-8 scalar from the head of a byte list, returning the
character and the remaining bytes. -/
def utf8DecodeOne : List Nat → Option (Char × List Nat)
  | [] => none
  | b0 :: rest =>
    if b0 < 128 then (mkChar b0).bind fun c => some (c, rest)
    else if b0 < 192 then none
    else if b0 < 224 then utf8Two b0 rest
    else if b0 < 240 then utf8Three b0 rest
    else if b0 < 248 then utf8Four b0 rest
    else none

/-- Fuel-based UTF-8 decode loop (each step consumes at least one byte, so
fuel equal to the byte count always suffices). -/
def utf8DecodeAux : Nat → List Nat → Option (List Char)
  | _, [] => some []
  | 0, _ :: _ => none
  | fuel + 1, b0 :: rest =>
    (utf8DecodeOne (b0 :: rest)).bind fun cr =>
      (utf8DecodeAux fuel cr.2).bind fun cs => some (cr.1 :: cs)

/-- Decode UTF-8 bytes into characters, rejecting malformed or overlong
sequences and invalid scalar values. -/
def utf8Decode (bs : List Nat) : Option (List Char) := utf8DecodeAux bs.length bs

/-! ## Codec round-trip lemmas -/

theorem sexToBytes_bytesToSex :
    ∀ bs : List Nat, (∀ b ∈ bs, b < 256) → sexToBytes (bytesToSex bs) = some bs := by
  intro bs
  induction bs using bytesToSex.induct with
  | case1 => intro _; rfl
  | case2 a =>
    intro h
    have ha := h a (by simp)
    simp only [bytesToSex, sexToBytes]
    have e1 : a / 4 * 4 + a % 4 * 16 / 16 = a := by omega
    rw [e1]
  | case3 a b =>
    intro h
    have ha := h a (by simp)
    have hb := h b (by simp)
    simp only [bytesToSex, sexToBytes]
    have e1 : a / 4 * 4 + (a % 4 * 16 + b / 16) / 16 = a := by omega
    have e2 : (a % 4 * 16 + b / 16) % 16 * 16 + b % 16 * 4 / 4 = b := by omega
    rw [e1, e2]
  | case4 a b c rest ih =>
    intro h
    have ha := h a (by simp)
    have hb := h b (by simp)
    have hc := h c (by simp)
    have ih2 := ih (fun x hx => h x (by simp [hx]))
    simp only [bytesToSex, sexToBytes, ih2, Option.bind_eq_bind, Option.some_bind]
    have e1 : a / 4 * 4 + (a % 4 * 16 + b / 16) / 16 = a := by omega
    have e2 : (a % 4 * 16 + b / 16) % 16 * 16 + (b % 16 * 4 + c / 64) / 4 = b := by omega
    have e3 : (b % 16 * 4 + c / 64) % 4 * 64 + c % 64 = c := by omega
    rw [e1, e2, e3]

theorem bytesToSex_lt :
    ∀ bs : List Nat, (∀ b ∈ bs, b < 256) → ∀ s ∈ bytesToSex bs, s < 64 := by
  intro bs
  induction bs using bytesToSex.induct with
  | case1 => intro _ s hs; simp [bytesToSex] at hs
  | case2 a =>
    intro h s hs
    have ha := h a (by simp)
    simp only [bytesToSex, List.mem_cons, List.mem_singleton] at hs
    rcases hs with rfl | rfl | h0
    · omega
    · omega
    · simp at h0
  | case3 a b =>
    intro h s hs
    have ha := h a (by simp)
    have hb := h b (by simp)
    simp only [bytesToSex, List.mem_cons, List.mem_singleton] at hs
    rcases hs with rfl | rfl | rfl | h0
    · omega
    · omega
    · omega
    · simp at h0
  | case4 a b c rest ih =>
    intro h s hs
    have ha := h a (by simp)
    have hb := h b (by simp)
    have hc := h c (by simp)
    simp only [bytesToSex, List.mem_cons] at hs
    rcases hs with rfl | rfl | rfl | rfl | h0
    · omega
    · omega
    · omega
    · omega
    · exact ih (fun x hx => h x (by simp [hx])) s h0

theorem charsSex_map (c62 c63 : Char)
    (hinv : ∀ n < 64, charSex c62 c63 (sexChar c62 c63 n) = some n) :
    ∀ sx : List Nat, (∀ s ∈ sx, s < 64) →
      charsSex c62 c63 (sx.map (sexChar c62 c63)) = some sx := by
  intro sx
  induction sx with
  | nil => intro _; rfl
  | cons s ss ih =>
    intro h
    simp only [List.map_cons, charsSex, hinv s (h s (by simp)),
      ih (fun x hx => h x (by simp [hx])), Option.bind_eq_bind, Option.some_bind]

theorem url_charSex_sexChar : ∀ n < 64, charSex '-' '_' (sexChar '-' '_' n) = some n := by
  decide

theorem std_charSex_sexChar : ∀ n < 64, charSex '+' '/' (sexChar '+' '/' n) = some n := by
  decide

theorem url_sexChar_ne_pad : ∀ n < 64, sexChar '-' '_' n ≠ '=' := by decide

theorem std_sexChar_ne_pad : ∀ n < 64, sexChar '+' '/' n ≠ '=' := by decide

theorem url_sexChar_ne_dot : ∀ n < 64, sexChar '-' '_' n ≠ '.' := by decide

/-- `dropPad` is the identity on any list free of padding characters. -/
theorem dropPad_eq_self (l : List Char) (h : ∀ c ∈ l, c ≠ '=') : dropPad l = l := by
  unfold dropPad
  have hd : l.reverse.dropWhile (fun c => c = '=') = l.reverse := by
    rw [List.dropWhile_eq_self_iff]
    intro hx
    have hmem : l.reverse[0] ∈ l := List.mem_reverse.mp (List.getElem_mem _)
    simpa using h _ hmem
  rw [hd, List.reverse_reverse]

/-- URL-safe base64 round trip on byte lists. -/
theorem b64urlDecode_encode (bs : List Nat) (h : ∀ b ∈ bs, b < 256) :
    b64urlDecode (b64urlEncode bs) = some bs := by
  have hlt := bytesToSex_lt bs h
  unfold b64urlDecode b64urlEncode
  rw [dropPad_eq_self _ (by
    intro c hc
    rw [List.mem_map] at hc
    obtain ⟨s, hs, rfl⟩ := hc
    exact url_sexChar_ne_pad s (hlt s hs))]
  rw [charsSex_map _ _ url_charSex_sexChar _ hlt]
  simpa using sexToBytes_bytesToSex bs h

/-- No character of a URL-safe base64 encoding is a dot (the compact-token
separator): token segments never split. -/
theorem b64urlEncode_ne_dot (bs : List Nat) (h : ∀ b ∈ bs, b < 256) :
    ∀ c ∈ b64urlEncode bs, c ≠ '.' := by
  intro c hc
  unfold b64urlEncode at hc
  rw [List.mem_map] at hc
  obtain ⟨s, hs, rfl⟩ := hc
  exact url_sexChar_ne_dot s (bytesToSex_lt bs h s hs)

/-- Every padding character is the padding character. -/
theorem b64Pad_mem (n : Nat) : ∀ c ∈ b64Pad n, c = '=' := by
  intro c hc
  unfold b64Pad at hc
  split at hc
  · simpa using hc
  · split at hc
    · simpa using hc
    · simp at hc

/-- A standard base64 encoding has a multiple of four characters. -/
theorem b64std_length (bs : List Nat) :
    ((bytesToSex bs).length + (b64Pad bs.length).length) % 4 = 0 := by
  induction bs using bytesToSex.induct with
  | case1 => rfl
  | case2 a => simp [bytesToSex, b64Pad]
  | case3 a b => simp [bytesToSex, b64Pad]
  | case4 a b c rest ih =>
    have hpad : b64Pad (rest.length + 1 + 1 + 1) = b64Pad rest.length := by
      unfold b64Pad
      have h3 : (rest.length + 1 + 1 + 1) % 3 = rest.length % 3 := by omega
      rw [h3]
    simp only [bytesToSex, List.length_cons, hpad] at ih ⊢
    omega

/-- Stripping the padding of a standard base64 encoding leaves the data. -/
theorem dropPad_b64std (bs : List Nat) (h : ∀ b ∈ bs, b < 256) :
    dropPad ((bytesToSex bs).map (sexChar '+' '/') ++ b64Pad bs.length)
      = (bytesToSex bs).map (sexChar '+' '/') := by
  have hlt := bytesToSex_lt bs h
  have hne : ∀ c ∈ (bytesToSex bs).map (sexChar '+' '/'), c ≠ '=' := by
    intro c hc
    rw [List.mem_map] at hc
    obtain ⟨s, hs, rfl⟩ := hc
    exact std_sexChar_ne_pad s (hlt s hs)
  unfold dropPad
  rw [List.reverse_append, List.dropWhile_append]
  have h1 : (b64Pad bs.length).reverse.dropWhile (fun c => c = '=') = [] := by
    rw [List.dropWhile_eq_nil_iff]
    intro x hx
    simp [b64Pad_mem _ x (List.mem_reverse.mp hx)]
  rw [h1]
  simp only [List.isEmpty_nil, if_true]
  have h2 : ((bytesToSex bs).map (sexChar '+' '/')).reverse.dropWhile (fun c => c = '=')
      = ((bytesToSex bs).map (sexChar '+' '/')).reverse := by
    rw [List.dropWhile_eq_self_iff]
    intro hx
    have hmem : ((bytesToSex bs).map (sexChar '+' '/')).reverse[0]
        ∈ (bytesToSex bs).map (sexChar '+' '/') :=
      List.mem_reverse.mp (List.getElem_mem _)
    simpa using hne _ hmem
  rw [h2, List.reverse_reverse]

/-- Standard base64 round trip on byte lists. -/
theorem b64stdDecode_encode (bs : List Nat) (h : ∀ b ∈ bs, b < 256) :
    b64stdDecode (b64stdEncode bs) = some bs := by
  have hlt := bytesToSex_lt bs h
  have hkeep : ∀ c ∈ b64stdEncode bs,
      (((charSex '+' '/' c).isSome : Bool) || c = '=') = true := by
    intro c hc
    unfold b64stdEncode at hc
    rw [List.mem_append] at hc
    cases hc with
    | inl hc =>
      rw [List.mem_map] at hc
      obtain ⟨s, hs, rfl⟩ := hc
      rw [std_charSex_sexChar s (hlt s hs)]
      simp
    | inr hc =>
      simp [b64Pad_mem _ c hc]
  unfold b64stdDecode
  rw [List.filter_eq_self.mpr hkeep]
  unfold b64stdEncode
  have hlen : ((bytesToSex bs).map (sexChar '+' '/') ++ b64Pad bs.length).length % 4 = 0 := by
    rw [List.length_append, List.length_map]
    exact b64std_length bs
  rw [if_pos hlen, dropPad_b64std bs h, charsSex_map _ _ std_charSex_sexChar _ hlt]
  simpa using sexToBytes_bytesToSex bs h

/-! ### UTF-8 round trip -/

theorem char_valid_nat (c : Char) :
    c.toNat < 55296 ∨ (57344 ≤ c.toNat ∧ c.toNat < 1114112) := c.valid

theorem mkChar_toNat (c : Char) : mkChar c.toNat = some c := by
  unfold mkChar
  rw [if_pos (show c.toNat.isValidChar from c.valid), Char.ofNat_toNat]

theorem utf8Char_lt (c : Char) : ∀ b ∈ utf8Char c, b < 256 := by
  intro b hb
  have hv := char_valid_nat c
  by_cases h1 : c.toNat < 128
  · simp only [utf8Char, if_pos h1, List.mem_singleton] at hb
    omega
  · by_cases h2 : c.toNat < 2048
    · simp only [utf8Char, if_neg h1, if_pos h2, List.mem_cons, List.mem_singleton,
        List.not_mem_nil, or_false] at hb
      rcases hb with rfl | rfl <;> omega
    · by_cases h3 : c.toNat < 65536
      · simp only [utf8Char, if_neg h1, if_neg h2, if_pos h3, List.mem_cons,
          List.not_mem_nil, or_false] at hb
        rcases hb with rfl | rfl | rfl <;> omega
      · simp only [utf8Char, if_neg h1, if_neg h2, if_neg h3, List.mem_cons,
          List.not_mem_nil, or_false] at hb
        rcases hb with rfl | rfl | rfl | rfl <;> omega

theorem utf8Cont2_spec (c : Char) (h1 : 128 ≤ c.toNat) (h2 : c.toNat < 2048) :
    utf8Cont2 (192 + c.toNat / 64) (128 + c.toNat % 64) = some c := by
  unfold utf8Cont2
  rw [if_pos (by simp only [isCont, Bool.and_eq_true, decide_eq_true_eq]; omega)]
  have e : (192 + c.toNat / 64 - 192) * 64 + (128 + c.toNat % 64 - 128) = c.toNat := by omega
  simp only [e]
  rw [if_pos (by omega), mkChar_toNat c]

theorem utf8Cont3_spec (c : Char) (h1 : 2048 ≤ c.toNat) (h2 : c.toNat < 65536) :
    utf8Cont3 (224 + c.toNat / 4096) (128 + c.toNat / 64 % 64) (128 + c.toNat % 64) = some c := by
  unfold utf8Cont3
  rw [if_pos (by simp only [isCont, Bool.and_eq_true, decide_eq_true_eq]; omega)]
  have e : (224 + c.toNat / 4096 - 224) * 4096 + (128 + c.toNat / 64 % 64 - 128) * 64
      + (128 + c.toNat % 64 - 128) = c.toNat := by omega
  simp only [e]
  rw [if_pos (by omega), mkChar_toNat c]

theorem utf8Cont4_spec (c : Char) (h1 : 65536 ≤ c.toNat) (h2 : c.toNat < 1114112) :
    utf8Cont4 (240 + c.toNat / 262144) (128 + c.toNat / 4096 % 64) (128 + c.toNat / 64 % 64)
      (128 + c.toNat % 64) = some c := by
  unfold utf8Cont4
  rw [if_pos (by simp only [isCont, Bool.and_eq_true, decide_eq_true_eq]; omega)]
  have e : (240 + c.toNat / 262144 - 240) * 262144 + (128 + c.toNat / 4096 % 64 - 128) * 4096
      + (128 + c.toNat / 64 % 64 - 128) * 64 + (128 + c.toNat % 64 - 128) = c.toNat := by omega
  simp only [e]
  rw [if_pos (by omega), mkChar_toNat c]

theorem utf8DecodeOne_char (c : Char) (rest : List Nat) :
    utf8DecodeOne (utf8Char c ++ rest) = some (c, rest) := by
  have hv := char_valid_nat c
  by_cases h1 : c.toNat < 128
  · rw [show utf8Char c = [c.toNat] from by unfold utf8Char; rw [if_pos h1]]
    rw [List.cons_append, List.nil_append, utf8DecodeOne, if_pos h1, mkChar_toNat c]
    rfl
  · by_cases h2 : c.toNat < 2048
    · rw [show utf8Char c = [192 + c.toNat / 64, 128 + c.toNat % 64] from by
        unfold utf8Char; rw [if_neg h1, if_pos h2]]
      rw [List.cons_append, List.cons_append, List.nil_append, utf8DecodeOne]
      rw [if_neg (by omega), if_neg (by omega), if_pos (by omega)]
      rw [utf8Two, utf8Cont2_spec c (by omega) h2]
      rfl
    · by_cases h3 : c.toNat < 65536
      · rw [show utf8Char c
            = [224 + c.toNat / 4096, 128 + c.toNat / 64 % 64, 128 + c.toNat % 64] from by
          unfold utf8Char; rw [if_neg h1, if_neg h2, if_pos h3]]
        rw [List.cons_append, List.cons_append, List.cons_append, List.nil_append, utf8DecodeOne]
        rw [if_neg (by omega), if_neg (by omega), if_neg (by omega), if_pos (by omega)]
        rw [utf8Three, utf8Cont3_spec c (by omega) h3]
        rfl
      · rw [show utf8Char c = [240 + c.toNat / 262144, 128 + c.toNat / 4096 % 64,
            128 + c.toNat / 64 % 64, 128 + c.toNat % 64] from by
          unfold utf8Char; rw [if_neg h1, if_neg h2, if_neg h3]]
        rw [List.cons_append, List.cons_append, List.cons_append, List.cons_append,
          List.nil_append, utf8DecodeOne]
        rw [if_neg (by omega), if_neg (by omega), if_neg (by omega), if_neg (by omega),
          if_pos (by omega)]
        rw [utf8Four, utf8Cont4_spec c (by omega) (by omega)]
        rfl

theorem utf8Char_ne_nil (c : Char) : utf8Char c ≠ [] := by
  by_cases h1 : c.toNat < 128
  · rw [show utf8Char c = [c.toNat] from by unfold utf8Char; rw [if_pos h1]]
    simp
  · by_cases h2 : c.toNat < 2048
    · rw [show utf8Char c = [192 + c.toNat / 64, 128 + c.toNat % 64] from by
        unfold utf8Char; rw [if_neg h1, if_pos h2]]
      simp
    · by_cases h3 : c.toNat < 65536
      · rw [show utf8Char c
            = [224 + c.toNat / 4096, 128 + c.toNat / 64 % 64, 128 + c.toNat % 64] from by
          unfold utf8Char; rw [if_neg h1, if_neg h2, if_pos h3]]
        simp
      · rw [show utf8Char c = [240 + c.toNat / 262144, 128 + c.toNat / 4096 % 64,
            128 + c.toNat / 64 % 64, 128 + c.toNat % 64] from by
          unfold utf8Char; rw [if_neg h1, if_neg h2, if_neg h3]]
        simp

theorem utf8DecodeAux_chars (cs : List Char) :
    ∀ fuel : Nat, (utf8Chars cs).length ≤ fuel →
      utf8DecodeAux fuel (utf8Chars cs) = some cs := by
  induction cs with
  | nil => intro fuel _; cases fuel <;> rfl
  | cons c cs ih =>
    intro fuel hf
    have hne : utf8Char c ≠ [] := utf8Char_ne_nil c
    have hlen : 1 ≤ (utf8Char c).length := by
      cases h : utf8Char c with
      | nil => exact absurd h hne
      | cons x xs => simp
    rw [utf8Chars] at hf ⊢
    rw [List.length_append] at hf
    cases fuel with
    | zero => omega
    | succ f =>
      obtain ⟨b0, bs, hsplit⟩ : ∃ b0 bs, utf8Char c ++ utf8Chars cs = b0 :: bs := by
        cases h : utf8Char c with
        | nil => exact absurd h hne
        | cons x xs => exact ⟨x, xs ++ utf8Chars cs, by simp [h]⟩
      rw [hsplit, utf8DecodeAux, ← hsplit, utf8DecodeOne_char c]
      simp only [Option.bind_eq_bind, Option.some_bind]
      rw [ih f (by omega)]
      rfl

theorem utf8Decode_chars (cs : List Char) : utf8Decode (utf8Chars cs) = some cs :=
  utf8DecodeAux_chars cs (utf8Chars cs).length (Nat.le_refl _)

theorem utf8Chars_lt (cs : List Char) : ∀ b ∈ utf8Chars cs, b < 256 := by
  induction cs with
  | nil => intro b hb; simp [utf8Chars] at hb
  | cons c cs ih =>
    intro b hb
    rw [utf8Chars, List.mem_append] at hb
    cases hb with
    | inl hb => exact utf8Char_lt c b hb
    | inr hb => exact ih b hb

theorem strBytes_lt (s : String) : ∀ b ∈ strBytes s, b < 256 := utf8Chars_lt s.data

theorem utf8Decode_strBytes (s : String) : utf8Decode (strBytes s) = some s.data :=
  utf8Decode_chars s.data

/-! ### Number parsing round trip -/

/-- The foldl step `parseNatAcc` applies per digit character. -/
def digStep (a : Nat) (c : Char) : Nat := a * 10 + (c.toNat - 48)

theorem digit_spec : ∀ d, d < 10 →
    isDig (Char.ofNat (48 + d)) = true ∧ (Char.ofNat (48 + d)).toNat = 48 + d := by
  decide

theorem hexDig_spec : ∀ d, d < 16 → hexVal (hexDig d) = some d := by decide

theorem natDigsAux_digits : ∀ fuel n, ∀ c ∈ natDigsAux fuel n, isDig c = true := by
  intro fuel
  induction fuel with
  | zero => intro n c hc; simp [natDigsAux] at hc
  | succ f ih =>
    intro n c hc
    rw [natDigsAux] at hc
    by_cases h : n < 10
    · rw [if_pos h] at hc
      rw [List.mem_singleton] at hc
      subst hc
      exact (digit_spec n h).1
    · rw [if_neg h] at hc
      rw [List.mem_append] at hc
      cases hc with
      | inl hc => exact ih (n / 10) c hc
      | inr hc =>
        rw [List.mem_singleton] at hc
        subst hc
        exact (digit_spec (n % 10) (by omega)).1

theorem natDigsAux_ne_nil (fuel n : Nat) (h : 0 < fuel) : natDigsAux fuel n ≠ [] := by
  cases fuel with
  | zero => omega
  | succ f =>
    rw [natDigsAux]
    by_cases hn : n < 10
    · rw [if_pos hn]; simp
    · rw [if_neg hn]; simp

theorem foldl_natDigsAux : ∀ fuel n acc, n < 10 ^ fuel →
    List.foldl digStep acc (natDigsAux fuel n)
      = acc * 10 ^ (natDigsAux fuel n).length + n := by
  intro fuel
  induction fuel with
  | zero =>
    intro n acc h
    have : n = 0 := by simpa using h
    subst this
    simp [natDigsAux]
  | succ f ih =>
    intro n acc h
    rw [natDigsAux]
    by_cases hn : n < 10
    · rw [if_pos hn]
      simp only [List.foldl_cons, List.foldl_nil, List.length_singleton, digStep,
        (digit_spec n hn).2]
      omega
    · rw [if_neg hn]
      rw [List.foldl_append, List.length_append]
      have hdiv : n / 10 < 10 ^ f := by
        rw [Nat.div_lt_iff_lt_mul (by omega)]
        calc n < 10 ^ (f + 1) := h
        _ = 10 ^ f * 10 := by rw [Nat.pow_succ]
      rw [ih (n / 10) acc hdiv]
      simp only [List.foldl_cons, List.foldl_nil, List.length_singleton, digStep,
        (digit_spec (n % 10) (by omega)).2]
      set L := (natDigsAux f (n / 10)).length with hL
      calc (acc * 10 ^ L + n / 10) * 10 + (48 + n % 10 - 48)
          = acc * (10 ^ L * 10) + (n / 10 * 10 + n % 10) := by ring_nf; omega
        _ = acc * 10 ^ (L + 1) + n := by
            rw [Nat.pow_succ]
            congr 1
            omega

/-- The input does not begin with a digit (so a digit run ends there). -/
def notDigStart : List Char → Prop
  | [] => True
  | c :: _ => isDig c = false

theorem parseNatAcc_digits :
    ∀ ds : List Char, ∀ acc rest, (∀ c ∈ ds, isDig c = true) →
      parseNatAcc acc (ds ++ rest) = parseNatAcc (List.foldl digStep acc ds) rest := by
  intro ds
  induction ds with
  | nil => intro acc rest _; rfl
  | cons c t ih =>
    intro acc rest h
    rw [List.cons_append, parseNatAcc, if_pos (h c (by simp))]
    rw [ih _ rest (fun x hx => h x (by simp [hx]))]
    rfl

theorem parseNatAcc_stop (acc : Nat) (rest : List Char) (h : notDigStart rest) :
    parseNatAcc acc rest = (acc, rest) := by
  cases rest with
  | nil => rfl
  | cons c t =>
    rw [parseNatAcc, if_neg]
    rw [show isDig c = false from h]
    simp

theorem natDigs_cons (n : Nat) :
    ∃ c t, natDigs n = c :: t ∧ isDig c = true := by
  cases h : natDigs n with
  | nil => exact absurd h (natDigsAux_ne_nil (n + 1) n (by omega))
  | cons c t =>
    refine ⟨c, t, rfl, natDigsAux_digits (n + 1) n c ?_⟩
    rw [show natDigsAux (n + 1) n = natDigs n from rfl, h]
    exact List.mem_cons_self c t

theorem parseNat_natDigs (n : Nat) (rest : List Char) (h : notDigStart rest) :
    parseNat (natDigs n ++ rest) = some (n, rest) := by
  obtain ⟨c, t, hd, hc⟩ := natDigs_cons n
  have hfold : List.foldl digStep 0 (natDigs n) = n := by
    have := foldl_natDigsAux (n + 1) n 0
      (lt_of_lt_of_le (Nat.lt_pow_self (by omega) n) (Nat.pow_le_pow_right (by omega) (by omega)))
    simpa [natDigs] using this
  have hdigs : ∀ x ∈ natDigs n, isDig x = true := natDigsAux_digits (n + 1) n
  rw [hd, List.cons_append, parseNat, if_pos hc]
  have hstep : c.toNat - 48 = digStep 0 c := by simp [digStep]
  rw [hstep]
  have ht : ∀ x ∈ t, isDig x = true := fun x hx => hdigs x (hd ▸ List.mem_cons_of_mem c hx)
  rw [parseNatAcc_digits t (digStep 0 c) rest ht]
  have : List.foldl digStep (digStep 0 c) t = n := by
    rw [← List.foldl_cons, ← hd, hfold]
  rw [this, parseNatAcc_stop n rest h]

/-! ### String parsing round trip -/

theorem escStr_len (cs : List Char) : cs.length ≤ (escStr cs).length := by
  induction cs with
  | nil => simp [escStr]
  | cons c t ih =>
    rw [escStr, List.length_append, List.length_cons]
    have : 1 ≤ (escChar c).length := by
      unfold escChar
      split
      · simp
      · split
        · simp
        · split <;> simp
    omega

theorem parseStrBody_escStr :
    ∀ cs : List Char, ∀ fuel rest, cs.length < fuel →
      parseStrBody fuel (escStr cs ++ '"' :: rest) = some (cs, rest) := by
  intro cs
  induction cs with
  | nil =>
    intro fuel rest h
    cases fuel with
    | zero => omega
    | succ f => rfl
  | cons c t ih =>
    intro fuel rest h
    rw [List.length_cons] at h
    cases fuel with
    | zero => omega
    | succ f =>
    rw [escStr, List.append_assoc]
    by_cases hq : c = '"'
    · subst hq
      rw [show escChar '"' = ['\\', '"'] from rfl]
      rw [List.cons_append, List.cons_append, List.nil_append, parseStrBody]
      rw [show decEsc ('"' :: (escStr t ++ '"' :: rest))
          = some ('"', escStr t ++ '"' :: rest) from rfl]
      rw [Option.some_bind, ih f rest (by omega)]
      rfl
    · by_cases hb : c = '\\'
      · subst hb
        rw [show escChar '\\' = ['\\', '\\'] from rfl]
        rw [List.cons_append, List.cons_append, List.nil_append, parseStrBody]
        rw [show decEsc ('\\' :: (escStr t ++ '"' :: rest))
            = some ('\\', escStr t ++ '"' :: rest) from rfl]
        rw [Option.some_bind, ih f rest (by omega)]
        rfl
      · by_cases hctl : c.toNat < 32
        · rw [show escChar c = ['\\', 'u', '0', '0', hexDig (c.toNat / 16),
              hexDig (c.toNat % 16)] from by
            unfold escChar
            rw [if_neg hq, if_neg hb, if_pos hctl]]
          simp only [List.cons_append, List.nil_append]
          rw [parseStrBody]
          have hdec : decEsc ('u' :: '0' :: '0' :: hexDig (c.toNat / 16)
              :: hexDig (c.toNat % 16) :: (escStr t ++ '"' :: rest))
              = some (c, escStr t ++ '"' :: rest) := by
            rw [decEsc]
            have hhex : parseHex4 ('0' :: '0' :: hexDig (c.toNat / 16)
                :: hexDig (c.toNat % 16) :: (escStr t ++ '"' :: rest))
                = some (c.toNat, escStr t ++ '"' :: rest) := by
              rw [parseHex4]
              rw [show hexVal '0' = some 0 from rfl]
              rw [hexDig_spec (c.toNat / 16) (by omega), hexDig_spec (c.toNat % 16) (by omega)]
              simp only [Option.bind_eq_bind, Option.some_bind]
              have : ((0 * 16 + 0) * 16 + c.toNat / 16) * 16 + c.toNat % 16 = c.toNat := by
                omega
              rw [this]
            rw [hhex, Option.some_bind]
            rw [if_neg (by omega)]
            rw [mkChar_toNat c]
            rfl
          rw [hdec, Option.some_bind, ih f rest (by omega)]
          rfl
        · rw [show escChar c = [c] from by
            unfold escChar
            rw [if_neg hq, if_neg hb, if_neg hctl]]
          rw [List.cons_append, List.nil_append]
          have hstep : parseStrBody (f + 1) (c :: (escStr t ++ '"' :: rest))
              = (parseStrBody f (escStr t ++ '"' :: rest)).bind
                  fun p => some (c :: p.1, p.2) := by
            simp only [parseStrBody, hq, hb, if_neg hctl]
          rw [hstep, ih f rest (by omega)]
          rfl


/-! ### Parse-render round trip -/

/-- The remainder may only continue with a separator or a closer (or end):
exactly the contexts a rendered value is followed by. -/
def nextOk : List Char → Prop
  | [] => True
  | c :: _ => c = ',' ∨ c = '}' ∨ c = ']'

theorem nextOk_notDigStart (rest : List Char) (h : nextOk rest) : notDigStart rest := by
  cases rest with
  | nil => trivial
  | cons c t =>
    have : isDig c = false := by rcases h with rfl | rfl | rfl <;> decide
    exact this

theorem skipWs_cons (c : Char) (t : List Char) (h : isWs c = false) :
    skipWs (c :: t) = c :: t := by
  rw [skipWs, h]
  simp

theorem isDig_facts (c : Char) (h : isDig c = true) :
    c ≠ 'n' ∧ c ≠ 't' ∧ c ≠ 'f' ∧ c ≠ '"' ∧ c ≠ '[' ∧ c ≠ '{' ∧ c ≠ '-' ∧
      isWs c = false ∧ c ≠ ']' ∧ c ≠ '}' := by
  have hb : 48 ≤ c.toNat ∧ c.toNat ≤ 57 := by
    simp only [isDig, Bool.and_eq_true, decide_eq_true_eq] at h
    exact ⟨h.1, h.2⟩
  have hne : ∀ x : Char, c = x → ¬(48 ≤ x.toNat ∧ x.toNat ≤ 57) → False := by
    intro x hcx hx
    rw [hcx] at hb
    exact hx hb
  have hw : isWs c = false := by
    by_cases hw1 : isWs c = true
    · exfalso
      simp only [isWs, Bool.or_eq_true, beq_iff_eq] at hw1
      rcases hw1 with ((h1 | h1) | h1) | h1 <;> exact hne _ h1 (by decide)
    · simpa using hw1
  exact ⟨fun h1 => hne _ h1 (by decide), fun h1 => hne _ h1 (by decide),
    fun h1 => hne _ h1 (by decide), fun h1 => hne _ h1 (by decide),
    fun h1 => hne _ h1 (by decide), fun h1 => hne _ h1 (by decide),
    fun h1 => hne _ h1 (by decide), hw, fun h1 => hne _ h1 (by decide),
    fun h1 => hne _ h1 (by decide)⟩

/-- Every rendered value begins with a character that is not whitespace and
closes nothing. -/
theorem render_head (j : Json) :
    ∃ c t, Json.render j = c :: t ∧ isWs c = false ∧ c ≠ ']' ∧ c ≠ '}' := by
  cases j with
  | num n =>
    by_cases hn : n < 0
    · refine ⟨'-', natDigs n.natAbs, ?_, rfl, by decide, by decide⟩
      simp [Json.render, intChars, hn]
    · obtain ⟨c, t, hct, hc⟩ := natDigs_cons n.natAbs
      obtain ⟨_, _, _, _, _, _, _, hws, hrb, hcb⟩ := isDig_facts c hc
      refine ⟨c, t, ?_, hws, hrb, hcb⟩
      simp [Json.render, intChars, hn, hct]
  | bool b =>
    cases b
    · exact ⟨'f', _, rfl, rfl, by decide, by decide⟩
    · exact ⟨'t', _, rfl, rfl, by decide, by decide⟩
  | arr xs =>
    cases xs
    all_goals exact ⟨'[', _, rfl, rfl, by decide, by decide⟩
  | obj kvs =>
    cases kvs
    all_goals exact ⟨'{', _, rfl, rfl, by decide, by decide⟩
  | null => exact ⟨'n', _, rfl, rfl, by decide, by decide⟩
  | str s => exact ⟨'"', _, rfl, rfl, by decide, by decide⟩

theorem skipWs_render (j : Json) (x : List Char) :
    skipWs (Json.render j ++ x) = Json.render j ++ x := by
  obtain ⟨c, t, hct, hws, _, _⟩ := render_head j
  rw [hct, List.cons_append, skipWs_cons _ _ hws]

theorem nextOk_renderRestL (xs : JsonList) (rest : List Char) :
    nextOk (JsonList.renderRest xs ++ rest) := by
  cases xs with
  | nil => simp [JsonList.renderRest, nextOk]
  | cons y ys => simp [JsonList.renderRest, nextOk]

theorem nextOk_renderRestO (kvs : JsonObj) (rest : List Char) :
    nextOk (JsonObj.renderRest kvs ++ rest) := by
  cases kvs with
  | nil => simp [JsonObj.renderRest, nextOk]
  | cons k v kvs => simp [JsonObj.renderRest, nextOk]

theorem jsonSize_pos : ∀ j : Json, 1 ≤ Json.size j := by
  intro j
  cases j with
  | null => simp [Json.size]
  | bool b => simp [Json.size]
  | num n => simp [Json.size]
  | str s => simp [Json.size]
  | arr xs => cases xs <;> simp [Json.size] <;> omega
  | obj kvs => cases kvs <;> simp [Json.size] <;> omega

theorem jsonListSize_pos : ∀ xs : JsonList, 1 ≤ JsonList.size xs := by
  intro xs
  cases xs <;> simp [JsonList.size] <;> omega

theorem jsonObjSize_pos : ∀ kvs : JsonObj, 1 ≤ JsonObj.size kvs := by
  intro kvs
  cases kvs <;> simp [JsonObj.size] <;> omega

theorem natDigs_len_pos (n : Nat) : 1 ≤ (natDigs n).length := by
  obtain ⟨c, t, hct, _⟩ := natDigs_cons n
  rw [hct]
  simp

mutual
theorem render_size_le : ∀ j : Json, Json.size j ≤ (Json.render j).length
  | .null => by simp [Json.size, Json.render]
  | .bool true => by simp [Json.size, Json.render]
  | .bool false => by simp [Json.size, Json.render]
  | .num n => by
    rw [Json.size, Json.render]
    unfold intChars
    split
    · have := natDigs_len_pos n.natAbs
      simp only [List.length_cons]
      omega
    · exact natDigs_len_pos n.natAbs
  | .str s => by simp [Json.size, Json.render, renderStr]
  | .arr .nil => by simp [Json.size, Json.render]
  | .arr (.cons x xs) => by
    have h1 := render_size_le x
    have h2 := renderRest_size_leL xs
    rw [Json.size, Json.render]
    simp only [List.length_cons, List.length_append]
    omega
  | .obj .nil => by simp [Json.size, Json.render]
  | .obj (.cons k v kvs) => by
    have h1 := render_size_le v
    have h2 := renderRest_size_leO kvs
    rw [Json.size, Json.render]
    simp only [List.length_cons, List.length_append]
    omega

theorem renderRest_size_leL : ∀ xs : JsonList, JsonList.size xs ≤ (JsonList.renderRest xs).length
  | .nil => by simp [JsonList.size, JsonList.renderRest]
  | .cons y ys => by
    have h1 := render_size_le y
    have h2 := renderRest_size_leL ys
    rw [JsonList.size, JsonList.renderRest]
    simp only [List.length_cons, List.length_append]
    omega

theorem renderRest_size_leO : ∀ kvs : JsonObj, JsonObj.size kvs ≤ (JsonObj.renderRest kvs).length
  | .nil => by simp [JsonObj.size, JsonObj.renderRest]
  | .cons k v kvs => by
    have h1 := render_size_le v
    have h2 := renderRest_size_leO kvs
    rw [JsonObj.size, JsonObj.renderRest]
    simp only [List.length_cons, List.length_append]
    omega
end

/-- Reduction of `parseVal` on input starting with a minus sign. -/
theorem parseVal_minus (f : Nat) (t : List Char) :
    parseVal (f + 1) ('-' :: t)
      = (parseNat t).bind fun p => some (.num (-(p.1 : Int)), p.2) := rfl

/-- Reduction of `parseVal` on input starting with a quote. -/
theorem parseVal_quote (f : Nat) (t : List Char) :
    parseVal (f + 1) ('"' :: t)
      = (parseStrBody (t.length + 1) t).bind fun p => some (.str (String.mk p.1), p.2) := rfl

/-- Reduction of `parseVal` on input starting with a digit. -/
theorem parseVal_digit (f : Nat) (c : Char) (t : List Char) (h : isDig c = true) :
    parseVal (f + 1) (c :: t)
      = (parseNat (c :: t)).bind fun p => some (.num (p.1 : Int), p.2) := by
  obtain ⟨h1, h2, h3, h4, h5, h6, h7, hws, _, _⟩ := isDig_facts c h
  rw [parseVal, skipWs_cons _ _ hws]
  simp [h1, h2, h3, h4, h5, h6, h7, h]

/-- Reduction of `parseVal` on an opening bracket followed by a non-empty
element list. -/
theorem parseVal_bracket (f : Nat) (r : List Char)
    (h1 : skipWs r = r) (h2 : headIs r ']' = false) :
    parseVal (f + 1) ('[' :: r)
      = (parseVal f r).bind fun p =>
          (parseListRest f p.2).bind fun q => some (.arr (.cons p.1 q.1), q.2) := by
  rw [show parseVal (f + 1) ('[' :: r)
      = (if headIs (skipWs r) ']' then some (.arr .nil, (skipWs r).tail)
         else
           (parseVal f r).bind fun p =>
             (parseListRest f p.2).bind fun q => some (.arr (.cons p.1 q.1), q.2)) from rfl]
  rw [h1, h2]
  simp

/-- Reduction of `parseVal` on an opening brace followed by a non-empty member
list (the next character is the key's opening quote). -/
theorem parseVal_brace (f : Nat) (r : List Char)
    (h1 : skipWs r = r) (h2 : headIs r '}' = false) (h3 : headIs r '"' = true) :
    parseVal (f + 1) ('{' :: r)
      = (parseStrBody (r.tail.length + 1) r.tail).bind fun kp =>
          if headIs (skipWs kp.2) ':' then
            (parseVal f (skipWs kp.2).tail).bind fun vp =>
              (parseObjRest f vp.2).bind fun q =>
                some (.obj (.cons (String.mk kp.1) vp.1 q.1), q.2)
          else none := by
  rw [show parseVal (f + 1) ('{' :: r)
      = (if headIs (skipWs r) '}' then some (.obj .nil, (skipWs r).tail)
         else if headIs (skipWs r) '"' then
           (parseStrBody ((skipWs r).tail.length + 1) (skipWs r).tail).bind fun kp =>
             if headIs (skipWs kp.2) ':' then
               (parseVal f (skipWs kp.2).tail).bind fun vp =>
                 (parseObjRest f vp.2).bind fun q =>
                   some (.obj (.cons (String.mk kp.1) vp.1 q.1), q.2)
             else none
         else none) from rfl]
  rw [h1, h2, h3]
  simp

/-- Reduction of `parseListRest` on a comma. -/
theorem parseListRest_comma (f : Nat) (t : List Char) :
    parseListRest (f + 1) (',' :: t)
      = (parseVal f t).bind fun p =>
          (parseListRest f p.2).bind fun q => some (.cons p.1 q.1, q.2) := rfl

/-- Reduction of `parseObjRest` on a comma. -/
theorem parseObjRest_comma (f : Nat) (t : List Char)
    (h1 : skipWs t = t) (h3 : headIs t '"' = true) :
    parseObjRest (f + 1) (',' :: t)
      = (parseStrBody (t.tail.length + 1) t.tail).bind fun kp =>
          if headIs (skipWs kp.2) ':' then
            (parseVal f (skipWs kp.2).tail).bind fun vp =>
              (parseObjRest f vp.2).bind fun q =>
                some (.cons (String.mk kp.1) vp.1 q.1, q.2)
          else none := by
  rw [show parseObjRest (f + 1) (',' :: t)
      = (if headIs (skipWs t) '"' then
           (parseStrBody ((skipWs t).tail.length + 1) (skipWs t).tail).bind fun kp =>
             if headIs (skipWs kp.2) ':' then
               (parseVal f (skipWs kp.2).tail).bind fun vp =>
                 (parseObjRest f vp.2).bind fun q =>
                   some (.cons (String.mk kp.1) vp.1 q.1, q.2)
             else none
         else none) from rfl]
  rw [h1, h3]
  simp

mutual
theorem rt_val : ∀ (j : Json) (fuel : Nat) (rest : List Char),
    Json.size j ≤ fuel → nextOk rest →
    parseVal fuel (Json.render j ++ rest) = some (j, rest)
  | .null, fuel, rest, hf, _ => by
    cases fuel with
    | zero => simp [Json.size] at hf
    | succ f => rfl
  | .bool true, fuel, rest, hf, _ => by
    cases fuel with
    | zero => simp [Json.size] at hf
    | succ f => rfl
  | .bool false, fuel, rest, hf, _ => by
    cases fuel with
    | zero => simp [Json.size] at hf
    | succ f => rfl
  | .num n, fuel, rest, hf, hr => by
    cases fuel with
    | zero => simp [Json.size] at hf
    | succ f =>
      by_cases hn : n < 0
      · rw [show Json.render (.num n) = '-' :: natDigs n.natAbs from by
          simp [Json.render, intChars, hn]]
        rw [List.cons_append, parseVal_minus,
          parseNat_natDigs n.natAbs rest (nextOk_notDigStart rest hr)]
        have : ((n.natAbs : Int)) = -n := by omega
        rw [Option.some_bind, this]
        simp
      · obtain ⟨c, t, hct, hc⟩ := natDigs_cons n.natAbs
        rw [show Json.render (.num n) = natDigs n.natAbs from by
          simp [Json.render, intChars, hn]]
        rw [hct, List.cons_append, parseVal_digit f c _ hc, ← List.cons_append, ← hct,
          parseNat_natDigs n.natAbs rest (nextOk_notDigStart rest hr)]
        have : ((n.natAbs : Int)) = n := by omega
        rw [Option.some_bind, this]
  | .str s, fuel, rest, hf, _ => by
    cases fuel with
    | zero => simp [Json.size] at hf
    | succ f =>
      rw [show Json.render (.str s) ++ rest = '"' :: (escStr s.data ++ '"' :: rest) from by
        simp [Json.render, renderStr]]
      rw [parseVal_quote]
      have hlen : s.data.length < (escStr s.data ++ '"' :: rest).length + 1 := by
        have := escStr_len s.data
        rw [List.length_append]
        omega
      rw [parseStrBody_escStr s.data _ rest hlen, Option.some_bind]
  | .arr .nil, fuel, rest, hf, _ => by
    cases fuel with
    | zero => simp [Json.size] at hf
    | succ f => rfl
  | .arr (.cons x xs), fuel, rest, hf, hr => by
    cases fuel with
    | zero => simp [Json.size] at hf
    | succ f =>
      rw [show Json.render (.arr (.cons x xs)) ++ rest
          = '[' :: (Json.render x ++ (JsonList.renderRest xs ++ rest)) from by
        simp [Json.render]]
      obtain ⟨c, t, hct, hws, hcr, _⟩ := render_head x
      rw [parseVal_bracket f _ (skipWs_render x _)
        (by rw [hct, List.cons_append, headIs]; simp [hcr])]
      rw [Json.size] at hf
      rw [rt_val x f _ (by have := jsonListSize_pos xs; omega) (nextOk_renderRestL xs rest),
        Option.some_bind, rt_list xs f rest (by have := jsonSize_pos x; omega) hr,
        Option.some_bind]
  | .obj .nil, fuel, rest, hf, _ => by
    cases fuel with
    | zero => simp [Json.size] at hf
    | succ f => rfl
  | .obj (.cons k v kvs), fuel, rest, hf, hr => by
    cases fuel with
    | zero => simp [Json.size] at hf
    | succ f =>
      rw [show Json.render (.obj (.cons k v kvs)) ++ rest
          = '{' :: ('"' :: (escStr k.data
              ++ '"' :: (':' :: (Json.render v ++ (JsonObj.renderRest kvs ++ rest))))) from by
        simp [Json.render, renderStr]]
      rw [parseVal_brace f _ (skipWs_cons _ _ (by decide)) (by rw [headIs]; decide)
        (by rw [headIs]; simp)]
      rw [List.tail_cons]
      have hlen : k.data.length
          < (escStr k.data ++ '"' :: (':' :: (Json.render v
              ++ (JsonObj.renderRest kvs ++ rest)))).length + 1 := by
        have := escStr_len k.data
        rw [List.length_append]
        omega
      rw [parseStrBody_escStr k.data _ _ hlen, Option.some_bind]
      rw [skipWs_cons ':' _ (by decide)]
      rw [show headIs (':' :: (Json.render v ++ (JsonObj.renderRest kvs ++ rest))) ':' = true
        from by rw [headIs]; simp]
      rw [if_pos rfl, List.tail_cons]
      rw [Json.size] at hf
      rw [rt_val v f _ (by have := jsonObjSize_pos kvs; omega) (nextOk_renderRestO kvs rest),
        Option.some_bind,
        rt_obj kvs f rest (by have := jsonSize_pos v; omega) hr, Option.some_bind]

theorem rt_list : ∀ (xs : JsonList) (fuel : Nat) (rest : List Char),
    JsonList.size xs ≤ fuel → nextOk rest →
    parseListRest fuel (JsonList.renderRest xs ++ rest) = some (xs, rest)
  | .nil, fuel, rest, hf, _ => by
    cases fuel with
    | zero => simp [JsonList.size] at hf
    | succ f => rfl
  | .cons y ys, fuel, rest, hf, hr => by
    cases fuel with
    | zero => simp [JsonList.size] at hf
    | succ f =>
      rw [show JsonList.renderRest (.cons y ys) ++ rest
          = ',' :: (Json.render y ++ (JsonList.renderRest ys ++ rest)) from by
        simp [JsonList.renderRest]]
      rw [parseListRest_comma]
      rw [JsonList.size] at hf
      rw [rt_val y f _ (by have := jsonListSize_pos ys; omega) (nextOk_renderRestL ys rest),
        Option.some_bind, rt_list ys f rest (by have := jsonSize_pos y; omega) hr,
        Option.some_bind]

theorem rt_obj : ∀ (kvs : JsonObj) (fuel : Nat) (rest : List Char),
    JsonObj.size kvs ≤ fuel → nextOk rest →
    parseObjRest fuel (JsonObj.renderRest kvs ++ rest) = some (kvs, rest)
  | .nil, fuel, rest, hf, _ => by
    cases fuel with
    | zero => simp [JsonObj.size] at hf
    | succ f => rfl
  | .cons k v kvs, fuel, rest, hf, hr => by
    cases fuel with
    | zero => simp [JsonObj.size] at hf
    | succ f =>
      rw [show JsonObj.renderRest (.cons k v kvs) ++ rest
          = ',' :: ('"' :: (escStr k.data
              ++ '"' :: (':' :: (Json.render v ++ (JsonObj.renderRest kvs ++ rest))))) from by
        simp [JsonObj.renderRest, renderStr]]
      rw [parseObjRest_comma f _ (skipWs_cons _ _ (by decide)) (by rw [headIs]; simp)]
      rw [List.tail_cons]
      have hlen : k.data.length
          < (escStr k.data ++ '"' :: (':' :: (Json.render v
              ++ (JsonObj.renderRest kvs ++ rest)))).length + 1 := by
        have := escStr_len k.data
        rw [List.length_append]
        omega
      rw [parseStrBody_escStr k.data _ _ hlen, Option.some_bind]
      rw [skipWs_cons ':' _ (by decide)]
      rw [show headIs (':' :: (Json.render v ++ (JsonObj.renderRest kvs ++ rest))) ':' = true
        from by rw [headIs]; simp]
      rw [if_pos rfl, List.tail_cons]
      rw [JsonObj.size] at hf
      rw [rt_val v f _ (by have := jsonObjSize_pos kvs; omega) (nextOk_renderRestO kvs rest),
        Option.some_bind,
        rt_obj kvs f rest (by have := jsonSize_pos v; omega) hr, Option.some_bind]
end

/-- Full-document round trip: rendering then parsing recovers the value. -/
theorem parseJson_render (j : Json) : parseJson (Json.render j) = some j := by
  unfold parseJson
  have h := rt_val j ((Json.render j).length + 1) [] (by
    have := render_size_le j
    omega) trivial
  rw [List.append_nil] at h
  rw [h]
  rfl


/-! ## The signing engine

The core jwts module of this repository is not under src/ (only its test
suite, src/tests/test_jwts.py, is), so everything in this section is
modelled from the specification's words; each definition's doc comment notes
the section it comes from.
-/

/-- Modelled from the spec: the error taxonomy of section 7 of the
specification (the jwts/exceptions modules are not under src/). -/
inductive JwtError where
  | invalidFormat : JwtError
  | invalidAlgorithm : JwtError
  | invalidSignature : JwtError
  | invalidClaims : JwtError
  | invalidKey : JwtError
  | keySignatureMismatch : JwtError
deriving DecidableEq

/-- Modelled from the spec: the keypair abstraction of section 4.3 (the
keychain module is not under src/).  The key material is abstracted as a
natural number identifying the underlying P-256 key; `identity` is the
freely settable textual key id. -/
structure Keypair where
  km : Nat
  identity : Option String := none
deriving DecidableEq

/-- Modelled from the spec: `sign(message) -> raw signature bytes`
(section 4.3).  ECDSA itself is the external cryptography library, so the
signature is modelled symbolically as a byte string determined by the key
material and the message; all the engine relies on is that `verify`
recognizes exactly the signatures `sign` makes. -/
def Keypair.sign (k : Keypair) (msg : List Nat) : List Nat :=
  k.km % 256 :: msg

/-- Modelled from the spec: `verify(message, signature) -> bool`
(section 4.3), the recognizer of the symbolic signatures. -/
def Keypair.verify (k : Keypair) (msg sg : List Nat) : Bool :=
  sg == k.km % 256 :: msg

/-- Modelled from the spec: token-expiration leeway, 60 seconds
(section 6; the test suite names it `jwts.TOKEN_EXPIRATION_LEEWAY_SEC`). -/
def TOKEN_EXPIRATION_LEEWAY_SEC : Int := 60

/-- Modelled from the spec: nonce validity window, 120 seconds (section 6). -/
def NONCE_VALIDITY_SEC : Int := 120

/-! ### Timestamps (nonce policy, spec section 4.5) -/

/-- Whether a year is a leap year (proleptic Gregorian). -/
def isLeap (y : Nat) : Bool := y % 4 == 0 && (y % 100 != 0 || y % 400 == 0)

/-- Days in a month. -/
def daysInMonth (y m : Nat) : Nat :=
  if m = 2 then (if isLeap y then 29 else 28)
  else if m = 4 ∨ m = 6 ∨ m = 9 ∨ m = 11 then 30
  else 31

/-- Days from 1970-01-01 to the given civil date (Gregorian), for year at
least 1 (the civil-to-days conversion `calendar.timegm` performs). -/
def daysFromCivil (y m d : Nat) : Int :=
  let y2 := if m ≤ 2 then y - 1 else y
  let era := y2 / 400
  let yoe := y2 % 400
  let mp := (m + 9) % 12
  let doy := (153 * mp + 2) / 5 + (d - 1)
  let doe := yoe * 365 + yoe / 4 - yoe / 100 + doy
  ((era : Int) * 146097 + (doe : Int)) - 719468

def digVal (c : Char) : Nat := c.toNat - 48

/-- Modelled from the spec: parse an RFC-3339 UTC timestamp
`YYYY-MM-DDTHH:MM:SSZ` into seconds since the epoch, validating the fields
the way `datetime.strptime` does (year at least 1, month 1-12, day within
the month, hour below 24, minute below 60, second up to 61). -/
def parseTsChars : List Char → Option Int
  | [y1, y2, y3, y4, a1, m1, m2, a2, d1, d2, a3, h1, h2, a4, i1, i2, a5, s1, s2, a6] =>
    if isDig y1 && isDig y2 && isDig y3 && isDig y4 && isDig m1 && isDig m2 &&
        isDig d1 && isDig d2 && isDig h1 && isDig h2 && isDig i1 && isDig i2 &&
        isDig s1 && isDig s2 &&
        a1 == '-' && a2 == '-' && a3 == 'T' && a4 == ':' && a5 == ':' && a6 == 'Z' then
      let y := digVal y1 * 1000 + digVal y2 * 100 + digVal y3 * 10 + digVal y4
      let m := digVal m1 * 10 + digVal m2
      let d := digVal d1 * 10 + digVal d2
      let h := digVal h1 * 10 + digVal h2
      let mi := digVal i1 * 10 + digVal i2
      let s := digVal s1 * 10 + digVal s2
      if 1 ≤ y ∧ 1 ≤ m ∧ m ≤ 12 ∧ 1 ≤ d ∧ d ≤ daysInMonth y m ∧
          h ≤ 23 ∧ mi ≤ 59 ∧ s ≤ 61 then
        some (daysFromCivil y m d * 86400 + ((h * 3600 + mi * 60 + s : Nat) : Int))
      else none
    else none
  | _ => none

def parseTs (s : String) : Option Int := parseTsChars s.data

/-- Modelled from the spec: the nonce policy of section 4.5.  A nonce is a
29-character string: the prefix `001`, a 20-character RFC-3339 UTC
timestamp, and six arbitrary characters; it is accepted iff the timestamp
lies within `[now - NONCE_VALIDITY, now + LEEWAY]`. -/
def nonceOk (s : String) (now : Int) : Bool :=
  match s.data with
  | c1 :: c2 :: c3 :: rest =>
    c1 == '0' && c2 == '0' && c3 == '1' && rest.length == 26 &&
      (match parseTsChars (rest.take 20) with
       | some t =>
         decide (now - NONCE_VALIDITY_SEC ≤ t) &&
           decide (t ≤ now + TOKEN_EXPIRATION_LEEWAY_SEC)
       | none => false)
  | _ => false

/-! ### Claims validation (spec section 4.4) -/

/-- Modelled from the spec: the claims validator of section 4.4. `exp` is
rejected when `now > exp + LEEWAY`; `nbf` when `now + LEEWAY < nbf`;
non-integer `exp`/`nbf` values are treated as absent; a present `jti` is
delegated to the nonce policy. -/
def claimsOk (kvs : JsonObj) (now : Int) : Bool :=
  (match kvs.lookup "exp" with
   | some (.num e) => decide (now ≤ e + TOKEN_EXPIRATION_LEEWAY_SEC)
   | _ => true) &&
  (match kvs.lookup "nbf" with
   | some (.num b) => decide (b ≤ now + TOKEN_EXPIRATION_LEEWAY_SEC)
   | _ => true) &&
  (match kvs.lookup "jti" with
   | some (.str s) => nonceOk s now
   | some _ => false
   | none => true)

/-- Modelled from the spec: inject `iss = "oneID"` if not already present
(section 4.6); a fresh entry lands at the end, as `dict.setdefault` does. -/
def injectIss (claims : JsonObj) : JsonObj :=
  match claims.lookup "iss" with
  | some _ => claims
  | none => claims.append (.cons "iss" (.str "oneID") .nil)

/-! ### The compact token engine (spec section 4.6) -/

/-- Modelled from the spec: the fixed protected-header literal
`{"typ":"JWT","alg":"ES256"}` of sections 4.6 and 6, byte for byte. -/
def jwtHeaderChars : List Char :=
  ['{', '"', 't', 'y', 'p', '"', ':', '"', 'J', 'W', 'T', '"', ',',
   '"', 'a', 'l', 'g', '"', ':', '"', 'E', 'S', '2', '5', '6', '"', '}']

/-- The base64url-encoded canonical payload of a claim mapping. -/
def payload64 (claims : JsonObj) : List Char :=
  b64urlEncode (utf8Chars (Json.render (.obj (injectIss claims))))

/-- The base64url-encoded fixed compact header. -/
def header64 : List Char := b64urlEncode (utf8Chars jwtHeaderChars)

/-- Modelled from the spec: `make_jwt` (section 4.6): inject the default
issuer, render the payload canonically, sign
`b64url(header) || "." || b64url(payload)`, and join three b64url segments
with dots. -/
def make_jwt (claims : JsonObj) (k : Keypair) : String :=
  let p64 := payload64 claims
  let sg := k.sign (utf8Chars (header64 ++ '.' :: p64))
  String.mk (header64 ++ '.' :: (p64 ++ '.' :: b64urlEncode sg))

/-- Split a character list at every dot, as Python str.split('.') does. -/
def splitDots : List Char → List (List Char)
  | [] => [[]]
  | c :: rest =>
    if c = '.' then [] :: splitDots rest
    else
      match splitDots rest with
      | seg :: segs => (c :: seg) :: segs
      | [] => [[c]]

/-- Decode a base64url segment and parse its bytes as a JSON document. -/
def segJson (seg : List Char) : Option Json := do
  let bytes ← b64urlDecode seg
  let cs ← utf8Decode bytes
  parseJson cs

/-- Modelled from the spec: the header check of section 4.6's `verify_jwt`:
the decoded header must be a JSON object with exactly the keys `typ` and
`alg`, valued `"JWT"` and `"ES256"`. -/
def headerOk (j : Json) : Bool :=
  match j with
  | .obj kvs =>
    (match kvs.lookup "typ" with
     | some (.str t) => t == "JWT"
     | _ => false) &&
    (match kvs.lookup "alg" with
     | some (.str a) => a == "ES256"
     | _ => false) &&
    (kvs.keys.all fun key => key == "typ" || key == "alg")
  | _ => false

/-- Modelled from the spec: `verify_jwt` (section 4.6).  Split on dots into
exactly three segments, check the header shape, decode the payload object,
verify the signature over `header_seg || "." || payload_seg` when a keypair
is given, then run the claims validator at the given clock reading. -/
def verify_jwt (token : String) (kp : Option Keypair) (now : Int) :
    Except JwtError JsonObj :=
  match splitDots token.data with
  | [h, p, s] =>
    match segJson h with
    | none => .error .invalidFormat
    | some hj =>
      if headerOk hj then
        match segJson p with
        | some (.obj kvs) =>
          match b64urlDecode s with
          | none => .error .invalidFormat
          | some sigBytes =>
            let sigOk := match kp with
              | none => true
              | some k => k.verify (utf8Chars (h ++ '.' :: p)) sigBytes
            if sigOk then
              if claimsOk kvs now then .ok kvs else .error .invalidClaims
            else .error .invalidSignature
        | _ => .error .invalidFormat
      else .error .invalidFormat
  | _ => .error .invalidFormat

/-! ### The multi-signature engine (spec section 4.7) -/

/-- Modelled from the spec: the per-signer protected header
`{"typ":"JOSE+JSON","alg":"ES256","kid":identity}` of section 4.7. -/
def jwsHeader (kid : String) : Json :=
  .obj (.cons "typ" (.str "JOSE+JSON")
    (.cons "alg" (.str "ES256")
      (.cons "kid" (.str kid) .nil)))

/-- Whether a keypair carries a non-empty identity. -/
def hasIdentity (k : Keypair) : Bool :=
  match k.identity with
  | some s => !s.isEmpty
  | none => false

def jsonListOf : List Json → JsonList
  | [] => .nil
  | j :: js => .cons j (jsonListOf js)

def jsonListToList : JsonList → List Json
  | .nil => []
  | .cons j js => j :: jsonListToList js

/-- The kid string of a keypair (empty when no identity is set). -/
def kidOf (k : Keypair) : String := (k.identity).getD ""

/-- Modelled from the spec: one entry of the `signatures` array of
section 4.7: the per-signer protected header, base64url-encoded, and the
signature over `b64url(header) || "." || b64url(payload)`. -/
def sigEntryJson (p64 : List Char) (k : Keypair) : Json :=
  let prot64 := b64urlEncode (utf8Chars (Json.render (jwsHeader (kidOf k))))
  let sg := k.sign (utf8Chars (prot64 ++ '.' :: p64))
  .obj (.cons "protected" (.str (String.mk prot64))
    (.cons "signature" (.str (String.mk (b64urlEncode sg))) .nil))

/-- The JSON value of the envelope `make_jws` serializes. -/
def envJson (claims : JsonObj) (kps : List Keypair) : Json :=
  .obj (.cons "payload" (.str (String.mk (payload64 claims)))
    (.cons "signatures"
      (.arr (jsonListOf (kps.map (sigEntryJson (payload64 claims))))) .nil))

/-- The serialized envelope string. -/
def envString (claims : JsonObj) (kps : List Keypair) : String :=
  String.mk (Json.render (envJson claims kps))

/-- Modelled from the spec: `make_jws` (section 4.7).  Every signer must
carry a non-empty identity (else `InvalidKey`); an empty signer list is
allowed and produces `signatures: []`. -/
def make_jws (claims : JsonObj) (kps : List Keypair) : Except JwtError String :=
  if kps.all hasIdentity then .ok (envString claims kps)
  else .error .invalidKey

/-- One decoded signature entry of an envelope. -/
structure SigEntry where
  kid : String
  prot64 : List Char
  sigBytes : List Nat
deriving DecidableEq

/-- Modelled from the spec: the per-signer header checks of section 4.7's
`verify_jws`: `typ` must be present and `"JOSE+JSON"` (else
`InvalidFormat`), `alg` present and `"ES256"` (else `InvalidAlgorithm`),
`kid` present (else `InvalidFormat`); returns the kid. -/
def jwsHeaderCheck (h : JsonObj) : Except JwtError String :=
  match h.lookup "typ" with
  | some (.str t) =>
    if t == "JOSE+JSON" then
      match h.lookup "alg" with
      | some (.str a) =>
        if a == "ES256" then
          match h.lookup "kid" with
          | some (.str kid) => .ok kid
          | _ => .error .invalidFormat
        else .error .invalidAlgorithm
      | _ => .error .invalidAlgorithm
    else .error .invalidFormat
  | _ => .error .invalidFormat

/-- Modelled from the spec: decode one `signatures` entry: the `protected`
and `signature` fields (else `InvalidFormat`), the signature bytes (an
undecodable signature cannot verify: `InvalidSignature`), the protected
header, and its checks. -/
def decodeSigEntry (j : Json) : Except JwtError SigEntry :=
  match j with
  | .obj kvs =>
    match kvs.lookup "protected", kvs.lookup "signature" with
    | some (.str prot), some (.str sg) =>
      (match b64urlDecode sg.data with
       | some sigBytes =>
         (match segJson prot.data with
          | some (.obj h) =>
            (match jwsHeaderCheck h with
             | .ok kid => .ok ⟨kid, prot.data, sigBytes⟩
             | .error e => .error e)
          | _ => .error .invalidFormat)
       | none => .error .invalidSignature)
    | _, _ => .error .invalidFormat
  | _ => .error .invalidFormat

def decodeSigEntries : List Json → Except JwtError (List SigEntry)
  | [] => .ok []
  | j :: js => do
    let e ← decodeSigEntry j
    let es ← decodeSigEntries js
    .ok (e :: es)

/-- Modelled from the spec: parse a multi-signature envelope: a JSON object
with a string `payload` and an array `signatures` (else `InvalidFormat`),
each entry decoded by `decodeSigEntry`. -/
def decodeEnvelope (cs : List Char) : Except JwtError (List Char × List SigEntry) :=
  match parseJson cs with
  | some (.obj kvs) =>
    match kvs.lookup "payload", kvs.lookup "signatures" with
    | some (.str p64), some (.arr sigs) =>
      (match decodeSigEntries (jsonListToList sigs) with
       | .ok entries => .ok (p64.data, entries)
       | .error e => .error e)
    | _, _ => .error .invalidFormat
  | _ => .error .invalidFormat

/-- The kid strings of a caller keypair list. -/
def kidsOf (kps : List Keypair) : List String := kps.map kidOf

/-- Whether two string lists agree as multisets (equal member counts). -/
def countsMatch (l1 l2 : List String) : Bool :=
  l1.all (fun x => l1.count x == l2.count x) &&
    l2.all (fun x => l1.count x == l2.count x)

/-- Whether a caller keypair verifies one envelope signature entry. -/
def entryVerifies (p64 : List Char) (k : Keypair) (e : SigEntry) : Bool :=
  k.verify (utf8Chars (e.prot64 ++ '.' :: p64)) e.sigBytes

/-- Modelled from the spec: the signature-stage policy of section 4.7's
`verify_jws`.  Under `verify_all = true`: duplicate caller identities are
`InvalidKey`; the caller kid multiset must equal the envelope kid multiset
(else `KeySignatureMismatch`); every signature must verify under the
caller keypair with its kid (else `InvalidSignature`).  Under
`verify_all = false`: some caller keypair must verify some signature
(else `KeySignatureMismatch`). -/
def sigStage (p64 : List Char) (entries : List SigEntry) (kps : List Keypair)
    (verifyAll : Bool) : Except JwtError Unit :=
  if verifyAll then
    if (kidsOf kps).Nodup then
      if countsMatch (kidsOf kps) (entries.map SigEntry.kid) then
        if entries.all (fun e =>
            match kps.find? (fun k => kidOf k == e.kid) with
            | some k => entryVerifies p64 k e
            | none => false) then
          .ok ()
        else .error .invalidSignature
      else .error .keySignatureMismatch
    else .error .invalidKey
  else
    if kps.any (fun k => entries.any (entryVerifies p64 k)) then .ok ()
    else .error .keySignatureMismatch

/-- Modelled from the spec: `verify_jws` (section 4.7).  A compact
three-segment token is accepted only for single-signer verification
(spec section 9: "the source accepts the promotion path but only for
single-signer verification ... implementations should raise rather than
guess"); otherwise the envelope is parsed, an envelope with zero
signatures fails with `InvalidSignature` regardless of mode, the
signature-stage policy runs, and finally the payload's claims are
validated. -/
def verify_jws (msg : String) (kps : List Keypair) (verifyAll : Bool) (now : Int) :
    Except JwtError JsonObj :=
  match splitDots msg.data with
  | [_, _, _] =>
    if kps.length ≤ 1 then verify_jwt msg kps.head? now
    else .error .invalidFormat
  | _ =>
    match decodeEnvelope msg.data with
    | .error e => .error e
    | .ok (p64, entries) =>
      if entries.isEmpty then .error .invalidSignature
      else
        match sigStage p64 entries kps verifyAll with
        | .error e => .error e
        | .ok _ =>
          match segJson p64 with
          | some (.obj kvs) =>
            if claimsOk kvs now then .ok kvs else .error .invalidClaims
          | _ => .error .invalidFormat

/-! ## Attribute encryption (src/src/oneid/service.py)

`encrypt_attr_value` and `decrypt_attr_value` are translated from the
source.  The AES-GCM primitive itself is the external cryptography
library; its CTR keystream and its authentication tag are abstracted as
function parameters `ksf` and `tagF`, which is all the round-trip and
error behavior of the service code depends on. -/

/-- Error kinds `decrypt_attr_value` can surface, by the Python exception
each corresponds to. -/
inductive CryptoError where
  /-- the explicit ValueError('invalid encrypted attribute') -/
  | invalidAttr : CryptoError
  /-- KeyError from a missing 'iv' or 'ct' entry -/
  | missingKey : CryptoError
  /-- TypeError from base64 of a non-string or from '//' on a non-integer -/
  | typeError : CryptoError
  /-- binascii.Error from base64.b64decode (a subclass of ValueError) -/
  | badB64 : CryptoError
  /-- ValueError from algorithms.AES on a key of invalid size -/
  | keyLength : CryptoError
  /-- ValueError from modes.GCM when the tag is shorter than min_tag_length -/
  | tagLength : CryptoError
  /-- cryptography.exceptions.InvalidTag (not a ValueError) -/
  | invalidTag : CryptoError
deriving DecidableEq

/-- Which error kinds surface as a Python ValueError (binascii.Error and
the constructor checks of AES and GCM are ValueError subclasses or raise
ValueError directly; KeyError, TypeError and InvalidTag are not). -/
def CryptoError.isValueError : CryptoError → Bool
  | .invalidAttr => true
  | .badB64 => true
  | .keyLength => true
  | .tagLength => true
  | _ => false

/-- `utils.to_bytes`: a str is UTF-8 encoded, bytes pass through. -/
def toBytes : Sum String (List Nat) → List Nat
  | .inl s => strBytes s
  | .inr bs => bs

/-- GCM CTR keystream application: byte i of the data XORed with byte i of
the keystream `ksf key iv`. -/
def gcmXorAux (ksf : List Nat → List Nat → Nat → Nat) (key iv : List Nat) :
    Nat → List Nat → List Nat
  | _, [] => []
  | i, b :: bs => (b ^^^ ksf key iv i % 256) :: gcmXorAux ksf key iv (i + 1) bs

def gcmXor (ksf : List Nat → List Nat → Nat → Nat) (key iv data : List Nat) :
    List Nat :=
  gcmXorAux ksf key iv 0 data

/-- `encrypt_attr_value` (service.py lines 189-203): GCM-encrypt the value
under a fresh 16-byte IV and return the dictionary with base64 cipher text
(cipher text followed by the 16-byte tag) and base64 IV, `ts = 128`. -/
def encrypt_attr_value (ksf : List Nat → List Nat → Nat → Nat)
    (tagF : List Nat → List Nat → List Nat → List Nat)
    (attr_value : Sum String (List Nat)) (aes_key iv : List Nat) : Json :=
  let ct := gcmXor ksf aes_key iv (toBytes attr_value)
  let tag := tagF aes_key iv ct
  .obj (.cons "cipher" (.str "aes")
    (.cons "mode" (.str "gcm")
      (.cons "ts" (.num 128)
        (.cons "iv" (.str (String.mk (b64stdEncode iv)))
          (.cons "ct" (.str (String.mk (b64stdEncode (ct ++ tag)))) .nil)))))

/-- The validation of decrypt_attr_value (service.py lines 214-218): the
argument must be a dict whose 'cipher' entry, when present, is 'aes' and
whose 'mode' entry, when present, is 'gcm'. -/
def attrValidationOk (attr_ct : Json) : Bool :=
  match attr_ct with
  | .obj kvs =>
    (match kvs.lookup "cipher" with
     | none => true
     | some (.str s) => s == "aes"
     | some _ => false) &&
    (match kvs.lookup "mode" with
     | none => true
     | some (.str s) => s == "gcm"
     | some _ => false)
  | _ => false

/-- The 'ts' entry with its default of 64 (service.py line 222); a
non-integer value would make the following floor division raise. -/
def tsVal (kvs : JsonObj) : Option Int :=
  match kvs.lookup "ts" with
  | none => some 64
  | some (.num n) => some n
  | some _ => none

/-- Python list slicing l[-k:] (k an integer). -/
def pySliceLast (l : List Nat) (k : Int) : List Nat :=
  if 0 < k then l.drop (l.length - k.toNat)
  else if k = 0 then l
  else l.drop k.natAbs

/-- Python list slicing l[:-k] (k an integer). -/
def pySliceInit (l : List Nat) (k : Int) : List Nat :=
  if 0 < k then l.take (l.length - k.toNat)
  else if k = 0 then []
  else l.take k.natAbs

/-- The body of `decrypt_attr_value` after its validation (service.py lines
220-231): decode the IV and cipher text, split off the tag (`ts` bits,
defaulting to 64), construct the cipher (AES checks the key size, GCM with
min_tag_length=8 checks the tag length), and decrypt, comparing tags. -/
def decryptBody (ksf : List Nat → List Nat → Nat → Nat)
    (tagF : List Nat → List Nat → List Nat → List Nat)
    (kvs : JsonObj) (aes_key : List Nat) : Except CryptoError (List Nat) :=
  match kvs.lookup "iv" with
  | none => .error .missingKey
  | some (.str ivs) =>
    (match b64stdDecode ivs.data with
     | none => .error .badB64
     | some iv =>
       match kvs.lookup "ct" with
       | none => .error .missingKey
       | some (.str cts) =>
         (match b64stdDecode cts.data with
          | none => .error .badB64
          | some tag_ct =>
            match tsVal kvs with
            | none => .error .typeError
            | some ts =>
              let tsB := Int.fdiv ts 8
              let tag := pySliceLast tag_ct tsB
              let ct := pySliceInit tag_ct tsB
              if aes_key.length = 16 ∨ aes_key.length = 24 ∨ aes_key.length = 32 then
                if 8 ≤ tag.length then
                  if tagF aes_key iv ct == tag then .ok (gcmXor ksf aes_key iv ct)
                  else .error .invalidTag
                else .error .tagLength
              else .error .keyLength)
       | some _ => .error .typeError)
  | some _ => .error .typeError

/-- `decrypt_attr_value` (service.py lines 206-231). -/
def decrypt_attr_value (ksf : List Nat → List Nat → Nat → Nat)
    (tagF : List Nat → List Nat → List Nat → List Nat)
    (attr_ct : Json) (aes_key : List Nat) : Except CryptoError (List Nat) :=
  if attrValidationOk attr_ct then
    match attr_ct with
    | .obj kvs => decryptBody ksf tagF kvs aes_key
    | _ => .error .invalidAttr
  else .error .invalidAttr

/-! ## Engine lemmas -/

theorem string_mk_data (l : List Char) : (String.mk l).data = l := rfl

theorem splitDots_nodot (a : List Char) (h : '.' ∉ a) : splitDots a = [a] := by
  induction a with
  | nil => rfl
  | cons c t ih =>
    rw [splitDots, if_neg (by intro hc; exact h (by simp [hc]))]
    rw [ih (fun hm => h (by simp [hm]))]

theorem splitDots_append (a r : List Char) (h : '.' ∉ a) :
    splitDots (a ++ '.' :: r) = a :: splitDots r := by
  induction a with
  | nil => simp [splitDots]
  | cons c t ih =>
    rw [List.cons_append, splitDots, if_neg (by intro hc; exact h (by simp [hc]))]
    rw [ih (fun hm => h (by simp [hm]))]

theorem splitDots_three (a b c : List Char) (ha : '.' ∉ a) (hb : '.' ∉ b) (hc : '.' ∉ c) :
    splitDots (a ++ '.' :: (b ++ '.' :: c)) = [a, b, c] := by
  rw [splitDots_append a _ ha, splitDots_append b _ hb, splitDots_nodot c hc]

theorem sign_lt (k : Keypair) (msg : List Nat) (h : ∀ b ∈ msg, b < 256) :
    ∀ b ∈ k.sign msg, b < 256 := by
  intro b hb
  rw [Keypair.sign, List.mem_cons] at hb
  rcases hb with rfl | hb
  · omega
  · exact h b hb

theorem verify_sign (k : Keypair) (m : List Nat) : k.verify m (k.sign m) = true := by
  simp [Keypair.verify, Keypair.sign]

theorem segJson_encode (cs : List Char) :
    segJson (b64urlEncode (utf8Chars cs)) = parseJson cs := by
  unfold segJson
  rw [b64urlDecode_encode _ (utf8Chars_lt cs)]
  rw [Option.bind_eq_bind, Option.some_bind, utf8Decode_chars cs]
  rfl

/-! ### Lookup and issuer-injection lemmas -/

theorem lookup_append : ∀ (C D : JsonObj) (k : String),
    (C.append D).lookup k
      = match C.lookup k with
        | some v => some v
        | none => D.lookup k
  | .nil, D, k => rfl
  | .cons k1 v1 t, D, k => by
    rw [JsonObj.append, JsonObj.lookup, JsonObj.lookup]
    by_cases hk : k1 == k
    · rw [if_pos hk, if_pos hk]
    · rw [if_neg hk, if_neg hk, lookup_append t D k]

theorem lookup_injectIss (C : JsonObj) (key : String) (v : Json)
    (h : C.lookup key = some v) : (injectIss C).lookup key = some v := by
  unfold injectIss
  cases hiss : C.lookup "iss" with
  | some w => exact h
  | none => rw [lookup_append, h]

theorem injectIss_iss_default (C : JsonObj) (h : C.lookup "iss" = none) :
    (injectIss C).lookup "iss" = some (.str "oneID") := by
  unfold injectIss
  rw [h, lookup_append, h]
  rfl

theorem injectIss_time_lookup (C : JsonObj) (key : String)
    (hk : (("iss" : String) == key) = false) :
    (injectIss C).lookup key = C.lookup key := by
  unfold injectIss
  cases hiss : C.lookup "iss" with
  | some w => rfl
  | none =>
    rw [lookup_append]
    cases hc : C.lookup key with
    | some v => rfl
    | none => simp [JsonObj.lookup, hk]

theorem claimsOk_injectIss (C : JsonObj) (now : Int) :
    claimsOk (injectIss C) now = claimsOk C now := by
  unfold claimsOk
  rw [injectIss_time_lookup C "exp" (by decide), injectIss_time_lookup C "nbf" (by decide),
    injectIss_time_lookup C "jti" (by decide)]

/-! ### Verification of freshly made compact tokens -/

/-- The decoded shape of the fixed compact header. -/
def jwtHeaderJson : Json :=
  .obj (.cons "typ" (.str "JWT") (.cons "alg" (.str "ES256") .nil))

theorem make_jwt_data (C : JsonObj) (K : Keypair) :
    (make_jwt C K).data
      = b64urlEncode (utf8Chars jwtHeaderChars)
        ++ '.' :: (b64urlEncode (utf8Chars (Json.render (.obj (injectIss C))))
        ++ '.' :: b64urlEncode (K.sign (utf8Chars
            (b64urlEncode (utf8Chars jwtHeaderChars)
              ++ '.' :: b64urlEncode (utf8Chars (Json.render (.obj (injectIss C)))))))) := rfl

theorem splitDots_make_jwt (C : JsonObj) (K : Keypair) :
    splitDots (make_jwt C K).data
      = [b64urlEncode (utf8Chars jwtHeaderChars),
         b64urlEncode (utf8Chars (Json.render (.obj (injectIss C)))),
         b64urlEncode (K.sign (utf8Chars
           (b64urlEncode (utf8Chars jwtHeaderChars)
             ++ '.' :: b64urlEncode (utf8Chars (Json.render (.obj (injectIss C)))))))] := by
  rw [make_jwt_data]
  exact splitDots_three _ _ _
    (fun hm => b64urlEncode_ne_dot _ (utf8Chars_lt _) _ hm rfl)
    (fun hm => b64urlEncode_ne_dot _ (utf8Chars_lt _) _ hm rfl)
    (fun hm => b64urlEncode_ne_dot _ (sign_lt K _ (utf8Chars_lt _)) _ hm rfl)

theorem segJson_header :
    segJson (b64urlEncode (utf8Chars jwtHeaderChars)) = some jwtHeaderJson := by
  rw [segJson_encode]
  rfl

theorem parseJson_header : parseJson jwtHeaderChars = some jwtHeaderJson := rfl

theorem headerOk_literal : headerOk jwtHeaderJson = true := rfl

/-- Verifying a token the engine just made reduces to the claims check:
with the maker's keypair (or none) the result is the claim mapping with
the injected issuer, unless the time-based claims fail. -/
theorem verify_jwt_make (C : JsonObj) (K : Keypair) (kp : Option Keypair) (now : Int)
    (hkp : kp = none ∨ kp = some K) :
    verify_jwt (make_jwt C K) kp now
      = (if claimsOk (injectIss C) now then .ok (injectIss C)
         else .error .invalidClaims) := by
  have hdec := b64urlDecode_encode
    (K.sign (utf8Chars (b64urlEncode (utf8Chars jwtHeaderChars)
      ++ '.' :: b64urlEncode (utf8Chars (Json.render (.obj (injectIss C)))))))
    (sign_lt K _ (utf8Chars_lt _))
  rcases hkp with rfl | rfl <;>
    simp only [verify_jwt, splitDots_make_jwt, segJson_encode, parseJson_header,
      headerOk_literal, if_true, parseJson_render, hdec, verify_sign]

/-! ### Envelope verification lemmas -/

theorem hexDig_ne_dot : ∀ n < 16, hexDig n ≠ '.' := by decide

theorem escChar_ne_dot (c : Char) (hc : c ≠ '.') : '.' ∉ escChar c := by
  intro hm
  unfold escChar at hm
  by_cases h1 : c = '"'
  · rw [if_pos h1] at hm; revert hm; decide
  · rw [if_neg h1] at hm
    by_cases h2 : c = '\\'
    · rw [if_pos h2] at hm; revert hm; decide
    · rw [if_neg h2] at hm
      by_cases h3 : c.toNat < 32
      · rw [if_pos h3] at hm
        simp only [List.mem_cons, List.not_mem_nil, or_false] at hm
        rcases hm with h | h | h | h | h | h
        · revert h; decide
        · revert h; decide
        · revert h; decide
        · revert h; decide
        · exact hexDig_ne_dot (c.toNat / 16) (by omega) h.symm
        · exact hexDig_ne_dot (c.toNat % 16) (by omega) h.symm
      · rw [if_neg h3] at hm
        simp only [List.mem_cons, List.not_mem_nil, or_false] at hm
        exact hc hm.symm

theorem escStr_ne_dot : ∀ (cs : List Char), '.' ∉ cs → '.' ∉ escStr cs
  | [], _ => by simp [escStr]
  | c :: t, h => by
    rw [escStr]
    intro hm
    rcases List.mem_append.mp hm with hl | hr
    · exact escChar_ne_dot c (fun hc => h (hc ▸ List.mem_cons_self c t)) hl
    · exact escStr_ne_dot t (fun ht => h (List.mem_cons_of_mem c ht)) hr

theorem renderStr_ne_dot (s : String) (h : '.' ∉ s.data) : '.' ∉ renderStr s := by
  rw [renderStr]
  intro hm
  rcases List.mem_cons.mp hm with h1 | h1
  · exact absurd h1 (by decide)
  · rcases List.mem_append.mp h1 with h2 | h2
    · exact escStr_ne_dot s.data h h2
    · exact absurd h2 (by decide)

/-- A base64url-encoded string contains no dot. -/
theorem b64url_no_dot (bs : List Nat) (h : ∀ b ∈ bs, b < 256) :
    '.' ∉ b64urlEncode bs :=
  fun hm => b64urlEncode_ne_dot bs h '.' hm rfl

/-- The per-signer protected header of a keypair, base64url-encoded. -/
def prot64 (k : Keypair) : List Char :=
  b64urlEncode (utf8Chars (Json.render (jwsHeader (kidOf k))))

/-- The decoded form of the signature entry `sigEntryJson` emits. -/
def mkEntry (p64 : List Char) (k : Keypair) : SigEntry :=
  ⟨kidOf k, prot64 k, k.sign (utf8Chars (prot64 k ++ '.' :: p64))⟩

theorem sigEntryJson_eq (p64 : List Char) (k : Keypair) :
    sigEntryJson p64 k
      = .obj (.cons "protected" (.str (String.mk (prot64 k)))
          (.cons "signature"
            (.str (String.mk (b64urlEncode (k.sign (utf8Chars (prot64 k ++ '.' :: p64))))))
            .nil)) := rfl

theorem dotfree_entry (p64 : List Char) (k : Keypair) :
    '.' ∉ Json.render (sigEntryJson p64 k) := by
  have h1 : '.' ∉ renderStr "protected" := renderStr_ne_dot _ (by decide)
  have h2 : '.' ∉ renderStr "signature" := renderStr_ne_dot _ (by decide)
  have h3 : '.' ∉ renderStr (String.mk (prot64 k)) :=
    renderStr_ne_dot _ (b64url_no_dot _ (utf8Chars_lt _))
  have h4 : '.' ∉ renderStr
      (String.mk (b64urlEncode (k.sign (utf8Chars (prot64 k ++ '.' :: p64))))) :=
    renderStr_ne_dot _ (b64url_no_dot _ (sign_lt _ _ (utf8Chars_lt _)))
  rw [sigEntryJson_eq, Json.render]
  intro hm
  rcases List.mem_cons.mp hm with h | h
  · exact absurd h (by decide)
  · rcases List.mem_append.mp h with h | h
    · exact h1 h
    · rcases List.mem_cons.mp h with h | h
      · exact absurd h (by decide)
      · rcases List.mem_append.mp h with h | h
        · exact h3 h
        · rw [JsonObj.renderRest] at h
          rcases List.mem_cons.mp h with h | h
          · exact absurd h (by decide)
          · rcases List.mem_append.mp h with h | h
            · exact h2 h
            · rcases List.mem_cons.mp h with h | h
              · exact absurd h (by decide)
              · rcases List.mem_append.mp h with h | h
                · exact h4 h
                · rw [JsonObj.renderRest] at h
                  exact absurd h (by decide)

theorem dotfree_sigsRest (p64 : List Char) :
    ∀ (l : List Keypair),
      '.' ∉ JsonList.renderRest (jsonListOf (l.map (sigEntryJson p64)))
  | [] => by rw [List.map_nil, jsonListOf, JsonList.renderRest]; decide
  | k :: t => by
    rw [List.map_cons, jsonListOf, JsonList.renderRest]
    intro hm
    rcases List.mem_cons.mp hm with h | h
    · exact absurd h (by decide)
    · rcases List.mem_append.mp h with h | h
      · exact dotfree_entry p64 k h
      · exact dotfree_sigsRest p64 t h

theorem dotfree_arr (p64 : List Char) (l : List Keypair) :
    '.' ∉ Json.render (.arr (jsonListOf (l.map (sigEntryJson p64)))) := by
  cases l with
  | nil => rw [List.map_nil, jsonListOf, Json.render]; decide
  | cons k t =>
    rw [List.map_cons, jsonListOf, Json.render]
    intro hm
    rcases List.mem_cons.mp hm with h | h
    · exact absurd h (by decide)
    · rcases List.mem_append.mp h with h | h
      · exact dotfree_entry p64 k h
      · exact dotfree_sigsRest p64 t h

theorem dotfree_env (C : JsonObj) (Ks : List Keypair) :
    '.' ∉ Json.render (envJson C Ks) := by
  have h1 : '.' ∉ renderStr "payload" := renderStr_ne_dot _ (by decide)
  have h2 : '.' ∉ renderStr "signatures" := renderStr_ne_dot _ (by decide)
  have h3 : '.' ∉ renderStr (String.mk (payload64 C)) :=
    renderStr_ne_dot _ (b64url_no_dot _ (utf8Chars_lt _))
  rw [envJson, Json.render]
  intro hm
  rcases List.mem_cons.mp hm with h | h
  · exact absurd h (by decide)
  · rcases List.mem_append.mp h with h | h
    · exact h1 h
    · rcases List.mem_cons.mp h with h | h
      · exact absurd h (by decide)
      · rcases List.mem_append.mp h with h | h
        · exact h3 h
        · rw [JsonObj.renderRest] at h
          rcases List.mem_cons.mp h with h | h
          · exact absurd h (by decide)
          · rcases List.mem_append.mp h with h | h
            · exact h2 h
            · rcases List.mem_cons.mp h with h | h
              · exact absurd h (by decide)
              · rcases List.mem_append.mp h with h | h
                · exact dotfree_arr (payload64 C) Ks h
                · rw [JsonObj.renderRest] at h
                  exact absurd h (by decide)

theorem splitDots_env (C : JsonObj) (Ks : List Keypair) :
    splitDots (envString C Ks).data = [Json.render (envJson C Ks)] :=
  splitDots_nodot _ (dotfree_env C Ks)

theorem jsonListToList_of : ∀ (l : List Json), jsonListToList (jsonListOf l) = l
  | [] => rfl
  | j :: js => by rw [jsonListOf, jsonListToList, jsonListToList_of js]

theorem lookup_entry_prot (p s : String) :
    (JsonObj.cons "protected" (.str p) (.cons "signature" (.str s) .nil)).lookup
      "protected" = some (.str p) := rfl

theorem lookup_entry_sig (p s : String) :
    (JsonObj.cons "protected" (.str p) (.cons "signature" (.str s) .nil)).lookup
      "signature" = some (.str s) := rfl

theorem jwsHeaderCheck_eval (kid : String) :
    jwsHeaderCheck (.cons "typ" (.str "JOSE+JSON")
      (.cons "alg" (.str "ES256") (.cons "kid" (.str kid) .nil))) = .ok kid := rfl

theorem segJson_prot64 (k : Keypair) :
    segJson (prot64 k) = some (jwsHeader (kidOf k)) := by
  show segJson (b64urlEncode (utf8Chars (Json.render (jwsHeader (kidOf k))))) = _
  rw [segJson_encode, parseJson_render]

theorem decodeSigEntry_make (p64 : List Char) (k : Keypair) :
    decodeSigEntry (sigEntryJson p64 k) = .ok (mkEntry p64 k) := by
  have hdec : b64urlDecode
      (String.mk (b64urlEncode (k.sign (utf8Chars (prot64 k ++ '.' :: p64))))).data
      = some (k.sign (utf8Chars (prot64 k ++ '.' :: p64))) :=
    b64urlDecode_encode _ (sign_lt _ _ (utf8Chars_lt _))
  have hseg : segJson (String.mk (prot64 k)).data = some (jwsHeader (kidOf k)) :=
    segJson_prot64 k
  rw [sigEntryJson_eq]
  simp only [decodeSigEntry, lookup_entry_prot, lookup_entry_sig, hdec, hseg,
    jwsHeader, jwsHeaderCheck_eval, mkEntry, string_mk_data]

theorem decodeSigEntries_make (p64 : List Char) :
    ∀ (Ks : List Keypair),
      decodeSigEntries (Ks.map (sigEntryJson p64)) = .ok (Ks.map (mkEntry p64))
  | [] => rfl
  | k :: t => by
    rw [List.map_cons, List.map_cons]
    simp only [decodeSigEntries, decodeSigEntry_make, decodeSigEntries_make p64 t]
    rfl

theorem lookup_env_payload (p : String) (X : Json) :
    (JsonObj.cons "payload" (.str p) (.cons "signatures" X .nil)).lookup "payload"
      = some (.str p) := rfl

theorem lookup_env_sigs (p : String) (X : Json) :
    (JsonObj.cons "payload" (.str p) (.cons "signatures" X .nil)).lookup "signatures"
      = some X := rfl

theorem decodeEnvelope_make (C : JsonObj) (Ks : List Keypair) :
    decodeEnvelope (envString C Ks).data
      = .ok (payload64 C, Ks.map (mkEntry (payload64 C))) := by
  show decodeEnvelope (Json.render (envJson C Ks)) = _
  rw [decodeEnvelope, parseJson_render]
  simp only [envJson, lookup_env_payload, lookup_env_sigs, jsonListToList_of,
    decodeSigEntries_make, string_mk_data]

theorem make_jws_ok (C : JsonObj) (Ks : List Keypair) (env : String)
    (h : make_jws C Ks = .ok env) :
    Ks.all hasIdentity = true ∧ env = envString C Ks := by
  rw [make_jws] at h
  by_cases hid : Ks.all hasIdentity
  · rw [if_pos hid] at h
    injection h with h
    exact ⟨hid, h.symm⟩
  · rw [if_neg hid] at h
    exact Except.noConfusion h

theorem segJson_payload (C : JsonObj) :
    segJson (payload64 C) = some (.obj (injectIss C)) := by
  show segJson (b64urlEncode (utf8Chars (Json.render (.obj (injectIss C))))) = _
  rw [segJson_encode, parseJson_render]

/-- `verify_jws` on a produced envelope with at least one signer: the
signature-stage policy decides, then the payload claims. -/
theorem verify_jws_env (C : JsonObj) (K : Keypair) (Kt : List Keypair)
    (kps : List Keypair) (mode : Bool) (now : Int) :
    verify_jws (envString C (K :: Kt)) kps mode now
      = match sigStage (payload64 C) ((K :: Kt).map (mkEntry (payload64 C))) kps mode with
        | .error e => .error e
        | .ok _ => if claimsOk (injectIss C) now then .ok (injectIss C)
                   else .error .invalidClaims := by
  rw [verify_jws, splitDots_env]
  simp only [decodeEnvelope_make, List.map_cons, List.isEmpty_cons, Bool.false_eq_true,
    if_false]
  cases hs : sigStage (payload64 C)
      (mkEntry (payload64 C) K :: Kt.map (mkEntry (payload64 C))) kps mode with
  | error e => rfl
  | ok u => rw [segJson_payload]

/-- `verify_jws` on a produced zero-signer envelope. -/
theorem verify_jws_env_nil (C : JsonObj) (kps : List Keypair) (mode : Bool) (now : Int) :
    verify_jws (envString C []) kps mode now = .error .invalidSignature := by
  rw [verify_jws, splitDots_env]
  simp only [decodeEnvelope_make, List.map_nil, List.isEmpty_nil, if_true]

theorem countsMatch_iff_perm (l1 l2 : List String) :
    countsMatch l1 l2 = true ↔ l1.Perm l2 := by
  rw [countsMatch, Bool.and_eq_true, List.all_eq_true, List.all_eq_true]
  constructor
  · intro h
    rw [List.perm_iff_count]
    intro a
    by_cases h1 : a ∈ l1
    · simpa using h.1 a h1
    · by_cases h2 : a ∈ l2
      · simpa using h.2 a h2
      · rw [List.count_eq_zero_of_not_mem h1, List.count_eq_zero_of_not_mem h2]
  · intro h
    have hc := List.perm_iff_count.mp h
    exact ⟨fun a _ => by simpa using hc a, fun a _ => by simpa using hc a⟩

/-- The envelope signer kid list is the signer keypairs' kid list. -/
theorem entries_kids (p64 : List Char) :
    ∀ (Ks : List Keypair), (Ks.map (mkEntry p64)).map SigEntry.kid = kidsOf Ks
  | [] => rfl
  | k :: t => by
    rw [List.map_cons, List.map_cons, kidsOf, List.map_cons]
    rw [show (mkEntry p64 k).kid = kidOf k from rfl]
    have := entries_kids p64 t
    rw [kidsOf] at this
    rw [this]

/-! ## Claim theorems -/

/-- A concrete keypair for witnesses. -/
def K0 : Keypair := ⟨7, some "kid0"⟩
def K1 : Keypair := ⟨11, some "kid1"⟩
def K2 : Keypair := ⟨13, some "kid2"⟩

/-- A concrete claim mapping for witnesses. -/
def msgClaims : JsonObj := .cons "message" (.str "hi") .nil

/-- C1 counterexample: with the expired claim `exp = 0` and a verification
clock of 61 (one second past the 60-second leeway), `verify_jwt` of the
freshly made token returns `InvalidClaims` instead of a mapping containing
the claims, so the round trip does not hold for every claim mapping. -/
theorem C1_counterexample :
    verify_jwt (make_jwt (JsonObj.cons "exp" (.num 0) .nil) K0) (some K0) 61
      = .error .invalidClaims := rfl

/-- C1 (amended): for every claim mapping `C` and keypair `K`, whenever the
time-based claims of `C` pass at the verification clock, `verify_jwt
(make_jwt C K) K` returns a mapping that contains every claim of `C` with
its original value, and that mapping contains `iss = "oneID"` when `C`
itself has no `iss` (a present `iss`, even a non-`"oneID"` one, is kept by
the containment conjunct). -/
theorem C1_roundtrip (C : JsonObj) (K : Keypair) (now : Int)
    (hok : claimsOk C now = true) :
    ∃ R, verify_jwt (make_jwt C K) (some K) now = .ok R
      ∧ (∀ key v, C.lookup key = some v → R.lookup key = some v)
      ∧ (C.lookup "iss" = none → R.lookup "iss" = some (.str "oneID")) := by
  refine ⟨injectIss C, ?_, lookup_injectIss C, injectIss_iss_default C⟩
  rw [verify_jwt_make C K (some K) now (Or.inr rfl), claimsOk_injectIss, hok, if_pos rfl]

/-- C1 witness: the round trip at the concrete mapping `message = "hi"`,
keypair `K0` and clock 5. -/
theorem C1_roundtrip_witness :
    ∃ R, verify_jwt (make_jwt msgClaims K0) (some K0) 5 = .ok R
      ∧ (∀ key v, msgClaims.lookup key = some v → R.lookup key = some v)
      ∧ (msgClaims.lookup "iss" = none → R.lookup "iss" = some (.str "oneID")) :=
  C1_roundtrip msgClaims K0 5 rfl

/-- C3: for every claim mapping and keypair, the first dot segment of the
compact token is the base64url encoding of the UTF-8 bytes of the fixed
header literal, and those bytes are exactly the 27 bytes of
`\x7b"typ":"JWT","alg":"ES256"\x7d` with no whitespace and the keys in
that order. -/
theorem C3_header_literal (C : JsonObj) (K : Keypair) :
    (splitDots (make_jwt C K).data).head?
        = some (b64urlEncode (utf8Chars jwtHeaderChars))
    ∧ utf8Chars jwtHeaderChars
        = [123, 34, 116, 121, 112, 34, 58, 34, 74, 87, 84, 34, 44,
           34, 97, 108, 103, 34, 58, 34, 69, 83, 50, 53, 54, 34, 125] :=
  ⟨by rw [splitDots_make_jwt]; rfl, by decide⟩

/-- The claims check of a mapping holding only a `jti` entry is the nonce
policy on that entry. -/
theorem claimsOk_jti (s : String) (now : Int) :
    claimsOk (.cons "jti" (.str s) .nil) now = nonceOk s now := rfl

/-- The nonce check on `"001" ++ ts ++ tail6` for a parseable 20-character
timestamp is the window test on the parsed time. -/
theorem nonceOk_at (ts : String) (t now : Int) (tail6 : List Char)
    (hts : parseTs ts = some t) (hlen : ts.data.length = 20)
    (h6 : tail6.length = 6) :
    nonceOk (String.mk ('0' :: '0' :: '1' :: (ts.data ++ tail6))) now
      = (decide (now - NONCE_VALIDITY_SEC ≤ t) &&
          decide (t ≤ now + TOKEN_EXPIRATION_LEEWAY_SEC)) := by
  have htake : (ts.data ++ tail6).take 20 = ts.data := List.take_left' hlen
  have hlen2 : (ts.data ++ tail6).length = 26 := by
    rw [List.length_append, hlen, h6]
  have hstep : nonceOk (String.mk ('0' :: '0' :: '1' :: (ts.data ++ tail6))) now
      = ((ts.data ++ tail6).length == 26 &&
          match parseTsChars ((ts.data ++ tail6).take 20) with
          | some u => decide (now - NONCE_VALIDITY_SEC ≤ u) &&
              decide (u ≤ now + TOKEN_EXPIRATION_LEEWAY_SEC)
          | none => false) := rfl
  rw [hstep, hlen2, htake, show parseTsChars ts.data = some t from hts]
  rfl

/-- The nonce check rejects any string with prefix `"002"`. -/
theorem nonceOk_002 (rest : List Char) (now : Int) :
    nonceOk (String.mk ('0' :: '0' :: '2' :: rest)) now = false := rfl

/-- C8: a token whose sole claim `jti` is `"001" ++ ts ++ tail6`, for a
parseable RFC-3339 UTC timestamp `ts` reading `t` and any six further
characters, verifies at clock `t`; the same nonce with prefix `"002"` is
`InvalidClaims`; and the `"001"` nonce verified 24 hours after `t` is
`InvalidClaims` (the timestamp is outside the nonce-validity window). -/
theorem C8_nonce_window (ts : String) (t : Int) (tail6 : List Char) (K : Keypair)
    (hts : parseTs ts = some t) (hlen : ts.data.length = 20)
    (h6 : tail6.length = 6) :
    verify_jwt (make_jwt (.cons "jti"
        (.str (String.mk ('0' :: '0' :: '1' :: (ts.data ++ tail6)))) .nil) K)
        (some K) t
      = .ok (injectIss (.cons "jti"
          (.str (String.mk ('0' :: '0' :: '1' :: (ts.data ++ tail6)))) .nil))
    ∧ verify_jwt (make_jwt (.cons "jti"
        (.str (String.mk ('0' :: '0' :: '2' :: (ts.data ++ tail6)))) .nil) K)
        (some K) t
      = .error .invalidClaims
    ∧ verify_jwt (make_jwt (.cons "jti"
        (.str (String.mk ('0' :: '0' :: '1' :: (ts.data ++ tail6)))) .nil) K)
        (some K) (t + 86400)
      = .error .invalidClaims := by
  refine ⟨?_, ?_, ?_⟩
  · rw [verify_jwt_make _ K (some K) t (Or.inr rfl), claimsOk_injectIss, claimsOk_jti,
      nonceOk_at ts t t tail6 hts hlen h6, if_pos]
    simp only [NONCE_VALIDITY_SEC, TOKEN_EXPIRATION_LEEWAY_SEC, Bool.and_eq_true,
      decide_eq_true_eq]
    omega
  · rw [verify_jwt_make _ K (some K) t (Or.inr rfl), claimsOk_injectIss, claimsOk_jti,
      nonceOk_002, if_neg]
    simp
  · rw [verify_jwt_make _ K (some K) _ (Or.inr rfl), claimsOk_injectIss, claimsOk_jti,
      nonceOk_at ts t (t + 86400) tail6 hts hlen h6, if_neg]
    simp only [NONCE_VALIDITY_SEC, TOKEN_EXPIRATION_LEEWAY_SEC, Bool.and_eq_true,
      decide_eq_true_eq]
    omega

/-- A concrete timestamp string for the C8 witness. -/
def w8ts : String := "2026-10-12T03:04:05Z"

/-- C8 witness: the three verdicts at the concrete timestamp
`2026-10-12T03:04:05Z` (epoch 1791774245), tail `"abcdef"` and keypair
`K2`. -/
theorem C8_nonce_window_witness :
    verify_jwt (make_jwt (.cons "jti"
        (.str (String.mk ('0' :: '0' :: '1' :: (w8ts.data ++ "abcdef".data)))) .nil) K2)
        (some K2) 1791774245
      = .ok (injectIss (.cons "jti"
          (.str (String.mk ('0' :: '0' :: '1' :: (w8ts.data ++ "abcdef".data)))) .nil))
    ∧ verify_jwt (make_jwt (.cons "jti"
        (.str (String.mk ('0' :: '0' :: '2' :: (w8ts.data ++ "abcdef".data)))) .nil) K2)
        (some K2) 1791774245
      = .error .invalidClaims
    ∧ verify_jwt (make_jwt (.cons "jti"
        (.str (String.mk ('0' :: '0' :: '1' :: (w8ts.data ++ "abcdef".data)))) .nil) K2)
        (some K2) (1791774245 + 86400)
      = .error .invalidClaims :=
  C8_nonce_window w8ts 1791774245 "abcdef".data K2 rfl rfl rfl

/-- Whether a token passes the format gate of `verify_jwt`: three dot
segments, and a first segment that base64url-decodes to UTF-8 JSON with
exactly the keys `typ` and `alg`, valued `"JWT"` and `"ES256"`. -/
def tokenFormatOk (token : String) : Bool :=
  match splitDots token.data with
  | [h, _, _] =>
    (match segJson h with
     | some hj => headerOk hj
     | none => false)
  | _ => false

/-- The segments of a good compact token, spliced into the bad tokens
below the way the test suite builds its malformed tokens. -/
def baseSegs : List (List Char) := splitDots (make_jwt msgClaims K0).data

/-- A token whose header says `alg = "NONE"`. -/
def tokAlgNone : String :=
  String.mk (b64urlEncode (utf8Chars (Json.render
      (.obj (.cons "typ" (.str "JWT") (.cons "alg" (.str "NONE") .nil)))))
    ++ '.' :: (baseSegs.getD 1 [] ++ '.' :: baseSegs.getD 2 []))

/-- A token whose header carries an extra key beside `typ` and `alg`. -/
def tokExtraKey : String :=
  String.mk (b64urlEncode (utf8Chars (Json.render
      (.obj (.cons "typ" (.str "JWT") (.cons "alg" (.str "ES256")
        (.cons "spam" (.str "eggs") .nil))))))
    ++ '.' :: (baseSegs.getD 1 [] ++ '.' :: baseSegs.getD 2 []))

/-- A token whose header segment decodes to bytes that are not JSON. -/
def tokNotJson : String :=
  String.mk (b64urlEncode (utf8Chars ("woo-hoo not a json header".data))
    ++ '.' :: (baseSegs.getD 1 [] ++ '.' :: baseSegs.getD 2 []))

/-- A token whose header segment is not decodable base64. -/
def tokBadB64 : String :=
  String.mk ('!' :: '.' :: (baseSegs.getD 1 [] ++ '.' :: baseSegs.getD 2 []))

/-- A token missing its third segment. -/
def tokTwoSegs : String :=
  String.mk (baseSegs.getD 0 [] ++ '.' :: baseSegs.getD 1 [])

/-- C4: `verify_jwt` answers `InvalidFormat` for every token that fails
the format gate, whatever keypair and clock; in particular for the
concrete tokens with an `alg = "NONE"` header, an extra header key, a
non-JSON header, an undecodable base64 header, and a missing third
segment. -/
theorem C4_format_errors :
    (∀ (token : String) (kp : Option Keypair) (now : Int),
        tokenFormatOk token = false →
          verify_jwt token kp now = .error .invalidFormat)
    ∧ verify_jwt tokAlgNone (some K0) 0 = .error .invalidFormat
    ∧ verify_jwt tokExtraKey (some K0) 0 = .error .invalidFormat
    ∧ verify_jwt tokNotJson (some K0) 0 = .error .invalidFormat
    ∧ verify_jwt tokBadB64 (some K0) 0 = .error .invalidFormat
    ∧ verify_jwt tokTwoSegs (some K0) 0 = .error .invalidFormat := by
  refine ⟨?_, rfl, rfl, rfl, rfl, rfl⟩
  intro token kp now hbad
  rw [tokenFormatOk] at hbad
  rw [verify_jwt]
  cases hsplit : splitDots token.data with
  | nil => rfl
  | cons a l1 =>
    cases l1 with
    | nil => rfl
    | cons b l2 =>
      cases l2 with
      | nil => rfl
      | cons c l3 =>
        cases l3 with
        | cons d l4 => rfl
        | nil =>
          rw [hsplit] at hbad
          cases hseg : segJson a with
          | none => simp only [hseg]
          | some hj =>
            simp only [hseg] at hbad
            simp only [hseg]
            rw [hbad]
            rfl

/-- C5 counterexample: the compact token made from the not-yet-valid claim
`nbf = 1000`, promoted through `verify_jws` at clock 0 with its own
keypair, is `InvalidClaims` instead of a mapping containing the claims, so
the promotion round trip does not hold for every claim mapping. -/
theorem C5_counterexample :
    verify_jws (make_jwt (JsonObj.cons "nbf" (.num 1000) .nil) K0) [K0] true 0
      = .error .invalidClaims := rfl

/-- C5 (amended): whenever the time-based claims of `C` pass at the
verification clock, `verify_jws` accepts the compact token `make_jwt C K`
with the single-keypair list `[K]` in either mode and returns a mapping
containing every claim of `C`; and with two or more keypairs supplied
against the compact token, `verify_jws` answers `InvalidFormat` instead of
guessing. -/
theorem C5_compact_promotion (C : JsonObj) (K : Keypair) (mode : Bool) (now : Int)
    (hok : claimsOk C now = true) :
    (∃ R, verify_jws (make_jwt C K) [K] mode now = .ok R
        ∧ ∀ key v, C.lookup key = some v → R.lookup key = some v)
    ∧ ∀ (kps : List Keypair), 2 ≤ kps.length →
        verify_jws (make_jwt C K) kps mode now = .error .invalidFormat := by
  constructor
  · refine ⟨injectIss C, ?_, lookup_injectIss C⟩
    simp only [verify_jws, splitDots_make_jwt]
    rw [if_pos (by simp)]
    show verify_jwt (make_jwt C K) (some K) now = _
    rw [verify_jwt_make C K (some K) now (Or.inr rfl), claimsOk_injectIss, hok,
      if_pos rfl]
  · intro kps hlen
    simp only [verify_jws, splitDots_make_jwt]
    rw [if_neg (by omega)]

/-- C5 witness: the concrete promotion at the mapping `message = "hi"`,
keypair `K1`, `verify_all = true` and clock 0. -/
theorem C5_compact_promotion_witness :
    (∃ R, verify_jws (make_jwt msgClaims K1) [K1] true 0 = .ok R
        ∧ ∀ key v, msgClaims.lookup key = some v → R.lookup key = some v)
    ∧ ∀ (kps : List Keypair), 2 ≤ kps.length →
        verify_jws (make_jwt msgClaims K1) kps true 0 = .error .invalidFormat :=
  C5_compact_promotion msgClaims K1 true 0 rfl

/-- The all-signatures stage answers `InvalidKey` on duplicate caller
identities. -/
theorem sigStage_dup (p64 : List Char) (entries : List SigEntry)
    (kps : List Keypair) (hdup : ¬ (kidsOf kps).Nodup) :
    sigStage p64 entries kps true = .error .invalidKey := by
  rw [sigStage, if_pos rfl, if_neg hdup]

/-- The all-signatures stage answers `KeySignatureMismatch` when the caller
kid multiset differs from the signer kid multiset. -/
theorem sigStage_mismatch (p64 : List Char) (Ks kps : List Keypair)
    (hnd : (kidsOf kps).Nodup) (hperm : ¬ (kidsOf kps).Perm (kidsOf Ks)) :
    sigStage p64 (Ks.map (mkEntry p64)) kps true = .error .keySignatureMismatch := by
  have hcm : ¬ (countsMatch (kidsOf kps) ((Ks.map (mkEntry p64)).map SigEntry.kid)
      = true) := by
    rw [entries_kids, countsMatch_iff_perm]
    exact hperm
  rw [sigStage, if_pos rfl, if_pos hnd, if_neg hcm]

/-- C2: for every envelope produced by `make_jws` with at least one signer
and every caller keypair list, `verify_jws` under `verify_all = true`
answers `InvalidKey` when the caller list has duplicate identities, and
`KeySignatureMismatch` when the caller identities, as a multiset (a list
up to permutation), differ from the envelope signer kids — too few, too
many, or mismatched. -/
theorem C2_multiset_policy (C : JsonObj) (K : Keypair) (Kt : List Keypair)
    (kps : List Keypair) (now : Int) (env : String)
    (henv : make_jws C (K :: Kt) = .ok env) :
    (¬ (kidsOf kps).Nodup → verify_jws env kps true now = .error .invalidKey)
    ∧ ((kidsOf kps).Nodup → ¬ (kidsOf kps).Perm (kidsOf (K :: Kt)) →
        verify_jws env kps true now = .error .keySignatureMismatch) := by
  obtain ⟨-, rfl⟩ := make_jws_ok C (K :: Kt) env henv
  constructor
  · intro hdup
    rw [verify_jws_env, sigStage_dup _ _ _ hdup]
  · intro hnd hperm
    rw [verify_jws_env, sigStage_mismatch _ _ _ hnd hperm]

/-- C2 witness: against the concrete two-signer envelope of `K1` and `K2`,
the duplicate caller list `[K1, K1]` is `InvalidKey` and the too-short
caller list `[K1]` is `KeySignatureMismatch`. -/
theorem C2_multiset_policy_witness :
    verify_jws (envString msgClaims [K1, K2]) [K1, K1] true 0 = .error .invalidKey
    ∧ verify_jws (envString msgClaims [K1, K2]) [K1] true 0
        = .error .keySignatureMismatch := by
  constructor
  · exact (C2_multiset_policy msgClaims K1 [K2] [K1, K1] 0
      (envString msgClaims [K1, K2]) rfl).1 (by decide)
  · exact (C2_multiset_policy msgClaims K1 [K2] [K1] 0
      (envString msgClaims [K1, K2]) rfl).2 (by decide)
      (fun hp => by have := hp.length_eq; simp [kidsOf] at this)

/-- C6: for every claim mapping, `make_jws` with an empty signer list
succeeds, its envelope decodes to an empty signatures array, and
`verify_jws` of that envelope is `InvalidSignature` for every caller
keypair list, in both modes, at every clock. -/
theorem C6_empty_signatures (C : JsonObj) (kps : List Keypair) (mode : Bool)
    (now : Int) :
    make_jws C [] = .ok (envString C [])
    ∧ decodeEnvelope (envString C []).data = .ok (payload64 C, [])
    ∧ verify_jws (envString C []) kps mode now = .error .invalidSignature :=
  ⟨rfl, by rw [decodeEnvelope_make]; rfl, verify_jws_env_nil C kps mode now⟩

/-- A caller keypair whose key material matches a signer verifies that
signer's symbolic signature. -/
theorem verify_sign_of_km (k k' : Keypair) (m : List Nat)
    (h : k.km % 256 = k'.km % 256) : k.verify m (k'.sign m) = true := by
  rw [Keypair.verify, Keypair.sign, h]
  exact beq_self_eq_true _

/-- C7 counterexample: under `verify_all = false`, a caller keypair that
verifies a signature of the envelope is not sufficient for success: with
the expired payload `exp = 0` at clock 61, `verify_jws` answers
`InvalidClaims` rather than returning the claim mapping. -/
theorem C7_counterexample :
    verify_jws (envString (JsonObj.cons "exp" (.num 0) .nil) [K1]) [K1] false 61
      = .error .invalidClaims := rfl

/-- C7 (amended): under `verify_all = false`, whenever the payload claims
pass at the verification clock, one caller keypair that verifies one
envelope signature suffices: `verify_jws` returns the claim mapping, even
though other caller keypairs match no envelope signer; and the same
envelope and caller list answer `KeySignatureMismatch` under
`verify_all = true` when the caller kids are not a permutation of the
signer kids. -/
theorem C7_any_signature (C : JsonObj) (K : Keypair) (Kt : List Keypair)
    (kps : List Keypair) (now : Int) (env : String) (k : Keypair)
    (henv : make_jws C (K :: Kt) = .ok env)
    (hok : claimsOk C now = true)
    (hk : k ∈ kps) (hshare : ∃ K' ∈ K :: Kt, k.km % 256 = K'.km % 256) :
    (verify_jws env kps false now = .ok (injectIss C)
      ∧ ∀ key v, C.lookup key = some v → (injectIss C).lookup key = some v)
    ∧ ((kidsOf kps).Nodup → ¬ (kidsOf kps).Perm (kidsOf (K :: Kt)) →
        verify_jws env kps true now = .error .keySignatureMismatch) := by
  obtain ⟨-, rfl⟩ := make_jws_ok C (K :: Kt) env henv
  refine ⟨⟨?_, lookup_injectIss C⟩, ?_⟩
  · obtain ⟨K', hK', hkm⟩ := hshare
    have hstage : sigStage (payload64 C) ((K :: Kt).map (mkEntry (payload64 C)))
        kps false = .ok () := by
      rw [sigStage, if_neg (by simp)]
      rw [if_pos]
      rw [List.any_eq_true]
      refine ⟨k, hk, ?_⟩
      rw [List.any_eq_true]
      refine ⟨mkEntry (payload64 C) K', List.mem_map_of_mem _ hK', ?_⟩
      rw [entryVerifies]
      exact verify_sign_of_km k K' _ hkm
    rw [verify_jws_env, hstage, claimsOk_injectIss, hok, if_pos rfl]
  · intro hnd hperm
    rw [verify_jws_env, sigStage_mismatch _ _ _ hnd hperm]

/-- C7 witness: against the concrete two-signer envelope of `K1` and `K2`,
the caller list `[K0, K2]` (where `K0` matches no signer) succeeds under
`verify_all = false` at clock 0 and is `KeySignatureMismatch` under
`verify_all = true`. -/
theorem C7_any_signature_witness :
    (verify_jws (envString msgClaims [K1, K2]) [K0, K2] false 0
        = .ok (injectIss msgClaims)
      ∧ ∀ key v, msgClaims.lookup key = some v →
          (injectIss msgClaims).lookup key = some v)
    ∧ ((kidsOf [K0, K2]).Nodup → ¬ (kidsOf [K0, K2]).Perm (kidsOf [K1, K2]) →
        verify_jws (envString msgClaims [K1, K2]) [K0, K2] true 0
          = .error .keySignatureMismatch) :=
  C7_any_signature msgClaims K1 [K2] [K0, K2] 0 (envString msgClaims [K1, K2]) K2
    rfl rfl (List.mem_cons_of_mem K0 (List.mem_cons_self K2 []))
    ⟨K2, List.mem_cons_of_mem K1 (List.mem_cons_self K2 []), rfl⟩

/-! ### Service claim theorems -/

theorem xor_lt_256 {a b : Nat} (ha : a < 256) (hb : b < 256) : a ^^^ b < 256 := by
  have h256 : (256 : Nat) = 2 ^ 8 := by norm_num
  rw [h256] at ha hb ⊢
  exact Nat.bitwise_lt ha hb

theorem gcmXorAux_invol (ksf : List Nat → List Nat → Nat → Nat) (key iv : List Nat) :
    ∀ (i : Nat) (bs : List Nat),
      gcmXorAux ksf key iv i (gcmXorAux ksf key iv i bs) = bs
  | _, [] => rfl
  | i, b :: bs => by
    rw [gcmXorAux, gcmXorAux, Nat.xor_assoc, Nat.xor_self, Nat.xor_zero,
      gcmXorAux_invol ksf key iv (i + 1) bs]

theorem gcmXor_invol (ksf : List Nat → List Nat → Nat → Nat) (key iv bs : List Nat) :
    gcmXor ksf key iv (gcmXor ksf key iv bs) = bs :=
  gcmXorAux_invol ksf key iv 0 bs

theorem gcmXorAux_lt (ksf : List Nat → List Nat → Nat → Nat) (key iv : List Nat) :
    ∀ (i : Nat) (bs : List Nat), (∀ b ∈ bs, b < 256) →
      ∀ c ∈ gcmXorAux ksf key iv i bs, c < 256
  | _, [], _ => by simp [gcmXorAux]
  | i, b :: bs, h => by
    rw [gcmXorAux]
    intro c hc
    rcases List.mem_cons.mp hc with h1 | h1
    · subst h1
      exact xor_lt_256 (h b (List.mem_cons_self b bs))
        (Nat.mod_lt _ (by norm_num))
    · exact gcmXorAux_lt ksf key iv (i + 1) bs
        (fun x hx => h x (List.mem_cons_of_mem b hx)) c h1

theorem gcmXor_lt (ksf : List Nat → List Nat → Nat → Nat) (key iv bs : List Nat)
    (h : ∀ b ∈ bs, b < 256) : ∀ c ∈ gcmXor ksf key iv bs, c < 256 :=
  gcmXorAux_lt ksf key iv 0 bs h

/-- The object `encrypt_attr_value` emits, by its two base64 fields. -/
def encSpine (ivs cts : String) : JsonObj :=
  .cons "cipher" (.str "aes") (.cons "mode" (.str "gcm")
    (.cons "ts" (.num 128) (.cons "iv" (.str ivs) (.cons "ct" (.str cts) .nil))))

theorem encrypt_eq (ksf : List Nat → List Nat → Nat → Nat)
    (tagF : List Nat → List Nat → List Nat → List Nat)
    (v : Sum String (List Nat)) (key iv : List Nat) :
    encrypt_attr_value ksf tagF v key iv = .obj (encSpine
      (String.mk (b64stdEncode iv))
      (String.mk (b64stdEncode (gcmXor ksf key iv (toBytes v)
        ++ tagF key iv (gcmXor ksf key iv (toBytes v)))))) := rfl

theorem lookup_enc_iv (ivs cts : String) :
    (encSpine ivs cts).lookup "iv" = some (.str ivs) := rfl

theorem lookup_enc_ct (ivs cts : String) :
    (encSpine ivs cts).lookup "ct" = some (.str cts) := rfl

theorem tsVal_enc (ivs cts : String) : tsVal (encSpine ivs cts) = some 128 := rfl

theorem attrValidationOk_enc (ivs cts : String) :
    attrValidationOk (.obj (encSpine ivs cts)) = true := rfl

theorem pySliceLast_tag (a b : List Nat) (hb : b.length = 16) :
    pySliceLast (a ++ b) 16 = b := by
  rw [pySliceLast, if_pos (by norm_num)]
  have h1 : (a ++ b).length - (16 : Int).toNat = a.length := by
    rw [List.length_append, hb]
    omega
  rw [h1, List.drop_left]

theorem pySliceInit_ct (a b : List Nat) (hb : b.length = 16) :
    pySliceInit (a ++ b) 16 = a := by
  rw [pySliceInit, if_pos (by norm_num)]
  have h1 : (a ++ b).length - (16 : Int).toNat = a.length := by
    rw [List.length_append, hb]
    omega
  rw [h1, List.take_left]

/-- C9: for every 32-byte AES key, decrypting the dictionary
`encrypt_attr_value` emits, under the same key, returns exactly the bytes
of the plaintext (`to_bytes` of the string-or-bytes value): the emitted
`ts = 128` makes the last 16 bytes of the decoded `ct` field the GCM tag,
the validation accepts the dictionary, the tag comparison succeeds, and
the CTR keystream cancels.  The keystream and tag of the external AES-GCM
primitive are the parameters `ksf` and `tagF`; the byte-level hypotheses
say the IV, plaintext and tag are bytes and the tag is 16 bytes long. -/
theorem C9_roundtrip (ksf : List Nat → List Nat → Nat → Nat)
    (tagF : List Nat → List Nat → List Nat → List Nat)
    (v : Sum String (List Nat)) (key iv : List Nat)
    (hkey : key.length = 32)
    (hiv : ∀ b ∈ iv, b < 256)
    (hv : ∀ b ∈ toBytes v, b < 256)
    (htlen : (tagF key iv (gcmXor ksf key iv (toBytes v))).length = 16)
    (htlt : ∀ b ∈ tagF key iv (gcmXor ksf key iv (toBytes v)), b < 256) :
    decrypt_attr_value ksf tagF (encrypt_attr_value ksf tagF v key iv) key
      = .ok (toBytes v) := by
  have hctlt : ∀ b ∈ gcmXor ksf key iv (toBytes v), b < 256 :=
    gcmXor_lt ksf key iv (toBytes v) hv
  have hcat : ∀ b ∈ gcmXor ksf key iv (toBytes v)
      ++ tagF key iv (gcmXor ksf key iv (toBytes v)), b < 256 := by
    intro b hb
    rcases List.mem_append.mp hb with h | h
    · exact hctlt b h
    · exact htlt b h
  rw [encrypt_eq, decrypt_attr_value, if_pos (attrValidationOk_enc _ _)]
  show decryptBody ksf tagF (encSpine (String.mk (b64stdEncode iv))
      (String.mk (b64stdEncode (gcmXor ksf key iv (toBytes v)
        ++ tagF key iv (gcmXor ksf key iv (toBytes v)))))) key = _
  simp only [decryptBody, lookup_enc_iv, lookup_enc_ct, tsVal_enc, string_mk_data,
    b64stdDecode_encode iv hiv, b64stdDecode_encode _ hcat]
  rw [show Int.fdiv 128 8 = 16 from rfl]
  rw [pySliceLast_tag _ _ htlen, pySliceInit_ct _ _ htlen]
  rw [if_pos (Or.inr (Or.inr hkey))]
  rw [if_pos (by rw [htlen]; norm_num)]
  rw [if_pos (beq_self_eq_true _)]
  rw [gcmXor_invol]

/-- The zero keystream, a concrete stand-in for the AES-GCM primitive. -/
def ksf0 : List Nat → List Nat → Nat → Nat := fun _ _ _ => 0

/-- A concrete 16-zero-byte tag function. -/
def tagF16 : List Nat → List Nat → List Nat → List Nat :=
  fun _ _ _ => List.replicate 16 0

/-- C9 witness: the round trip at the concrete plaintext `"secret"`, the
32-zero-byte key, a 16-byte IV, the zero keystream and the 16-zero-byte
tag function. -/
theorem C9_roundtrip_witness :
    decrypt_attr_value ksf0 tagF16
        (encrypt_attr_value ksf0 tagF16 (.inl "secret") (List.replicate 32 0)
          (List.replicate 16 1))
        (List.replicate 32 0)
      = .ok (toBytes (.inl "secret")) :=
  C9_roundtrip ksf0 tagF16 (.inl "secret") (List.replicate 32 0)
    (List.replicate 16 1) (by decide) (by decide) (by decide) (by decide)
    (by decide)

/-- C10 counterexample: the dictionary `\x7b"iv": "A"\x7d` passes the
cipher/mode validation, yet `decrypt_attr_value` raises a ValueError — the
base64 error on the one-character IV — so ValueError is not raised exactly
when the validation fails. -/
theorem C10_counterexample :
    decrypt_attr_value ksf0 tagF16 (.obj (.cons "iv" (.str "A") .nil)) []
      = .error .badB64
    ∧ CryptoError.isValueError .badB64 = true
    ∧ attrValidationOk (.obj (.cons "iv" (.str "A") .nil)) = true :=
  ⟨rfl, rfl, rfl⟩

/-- The post-validation body never answers the validation error. -/
theorem decryptBody_ne_invalidAttr (ksf : List Nat → List Nat → Nat → Nat)
    (tagF : List Nat → List Nat → List Nat → List Nat)
    (kvs : JsonObj) (key : List Nat) :
    decryptBody ksf tagF kvs key ≠ .error .invalidAttr := by
  intro h
  rw [decryptBody] at h
  repeat' split at h
  all_goals (try simp only [] at h)
  all_goals (try (repeat' split at h))
  all_goals simp at h

/-- C10 (amended): `decrypt_attr_value` answers the validation ValueError
(`invalidAttr`) exactly when its argument is not a dict, or has a `cipher`
entry other than `"aes"`, or a `mode` entry other than `"gcm"` — but later
stages can still raise other ValueErrors (`C10_counterexample`); a dict
omitting `cipher` and `mode` passes the validation, an absent `ts` entry
defaults to 64 (bits), and `encrypt_attr_value` always emits `ts = 128`. -/
theorem C10_validation (ksf : List Nat → List Nat → Nat → Nat)
    (tagF : List Nat → List Nat → List Nat → List Nat)
    (attr : Json) (key : List Nat) :
    (decrypt_attr_value ksf tagF attr key = .error .invalidAttr
      ↔ attrValidationOk attr = false)
    ∧ (∀ kvs : JsonObj, kvs.lookup "cipher" = none → kvs.lookup "mode" = none →
        attrValidationOk (.obj kvs) = true)
    ∧ (∀ kvs : JsonObj, kvs.lookup "ts" = none → tsVal kvs = some 64)
    ∧ (∀ (v : Sum String (List Nat)) (iv : List Nat),
        ∃ kvs, encrypt_attr_value ksf tagF v key iv = .obj kvs
          ∧ kvs.lookup "ts" = some (.num 128)) := by
  refine ⟨⟨?_, ?_⟩, ?_, ?_, ?_⟩
  · intro h
    by_cases hval : attrValidationOk attr = true
    · exfalso
      cases attr with
      | obj kvs =>
        rw [decrypt_attr_value, if_pos hval] at h
        exact decryptBody_ne_invalidAttr ksf tagF kvs key h
      | null => simp [attrValidationOk] at hval
      | bool b => simp [attrValidationOk] at hval
      | num n => simp [attrValidationOk] at hval
      | str s => simp [attrValidationOk] at hval
      | arr l => simp [attrValidationOk] at hval
    · exact Bool.eq_false_iff.mpr hval
  · intro hval
    cases attr with
    | obj kvs =>
      rw [decrypt_attr_value, if_neg (by rw [hval]; exact Bool.false_ne_true)]
    | null => rfl
    | bool b => rfl
    | num n => rfl
    | str s => rfl
    | arr l => rfl
  · intro kvs hc hm
    rw [attrValidationOk, hc, hm]
    rfl
  · intro kvs hts
    rw [tsVal, hts]
  · intro v iv
    exact ⟨_, encrypt_eq ksf tagF v key iv, rfl⟩

end OneId
